import Mathlib

/-!
Shallow embedding of the RBAC subsystem of the repository
(`apps/rbac/models.py`, `apps/rbac/selectors.py`, `apps/rbac/services.py`,
`apps/rbac/signals.py`) and proofs about the claims of the specification.

Modelling conventions:
* The database is a value of type `Db`: lists of rows plus auto-increment
  counters.  Django querysets become list filters/maps over those rows.
* Timestamps are natural numbers (`expires_at : Option Nat`, `now : Nat`).
* JSON `context` dicts are opaque scoping keys compared by equality, so they
  are modelled as `Nat`; `0` stands for the empty dict `{}` that
  `context or {}` produces.
* A raised `ValidationError` inside `transaction.atomic` aborts the whole
  operation, so fallible services return `Except RbacError`; an error value
  carries no new state, which models the rollback.
* Django lazy-queryset behaviour is modelled explicitly where it matters:
  `expire_user_roles` re-evaluates its queryset when iterating after
  `.update(...)`, and `.update(...)` on a queryset does not fire `post_save`
  signals (so `log_role_assignment` is only invoked from `Model.save` paths).
* Fields never referenced by any claim (descriptions, timestamps of rows,
  `reason`/`metadata` of history entries, role names/slugs) are omitted.
-/

namespace Rbac

/-- Audit actions of `RoleHistory.ACTION_CHOICES`. -/
inductive HistAction
  | assigned
  | revoked
  | expired
  | modified
deriving DecidableEq, Repr

/-- A row of `rbac_permissions` (`Permission` model). -/
structure Permission where
  id : Nat
  name : List Char
  codename : List Char
  is_active : Bool
deriving DecidableEq, Repr

/-- A row of `rbac_roles` (`Role` model): `permissions` is the M2M set of
permission ids, `inherits_from` the optional parent role id. -/
structure Role where
  id : Nat
  level : Nat
  is_active : Bool
  is_default : Bool
  max_users : Option Nat
  inherits_from : Option Nat
  permissions : List Nat
deriving DecidableEq, Repr

/-- A row of `rbac_user_roles` (`UserRole` model). -/
structure UserRole where
  id : Nat
  user : Nat
  role : Nat
  is_active : Bool
  is_primary : Bool
  expires_at : Option Nat
  context : Nat
  assigned_by : Option Nat
  notes : String
deriving DecidableEq, Repr

/-- A row of `rbac_role_history` (`RoleHistory` model), reduced to the fields
the claims talk about. -/
structure RoleHistory where
  user : Nat
  role : Nat
  action : HistAction
deriving DecidableEq, Repr

/-- The relational store: four tables plus the auto-increment counters for
`UserRole.id` and `Permission.id`. -/
structure Db where
  roles : List Role
  perms : List Permission
  userRoles : List UserRole
  history : List RoleHistory
  nextId : Nat
  nextPermId : Nat
deriving DecidableEq, Repr

/-- A principal: the only attributes the RBAC read path uses are the primary
key and the `is_superuser` flag. -/
structure User where
  id : Nat
  is_superuser : Bool
deriving DecidableEq, Repr

/-- Typed errors of the engine (Django raises `ValidationError`; the distinct
constructors record which check fired). -/
inductive RbacError
  | invalidFormat
  | duplicateName
  | duplicateCodename
  | capacityExceeded
  | alreadyPrimary
  | notFound
deriving DecidableEq, Repr

/-- Primary-key lookup in the role table. -/
def findRole (roles : List Role) (rid : Nat) : Option Role :=
  roles.find? (fun ro => ro.id == rid)

/-- The check of `Permission.clean`: the source tests `'.' not in self.name`
and raises when the name has no dot at all. -/
def permissionNameOk (name : List Char) : Bool :=
  name.contains '.'

/-- The store path of `PermissionService.create_permission`:
`full_clean` runs `Permission.clean` (the format check) and the uniqueness
validation of `name` and `codename`, then the row is inserted. -/
def create_permission (db : Db) (name codename : List Char) (is_active : Bool) :
    Except RbacError (Db × Nat) :=
  if ¬ permissionNameOk name then .error .invalidFormat
  else if db.perms.any (fun p => p.name == name) then .error .duplicateName
  else if db.perms.any (fun p => p.codename == codename) then .error .duplicateCodename
  else
    let p : Permission := ⟨db.nextPermId, name, codename, is_active⟩
    .ok ({db with perms := db.perms ++ [p], nextPermId := db.nextPermId + 1}, p.id)

/-- Whether the permission with the given id exists and is active. -/
def permIsActive (perms : List Permission) (pid : Nat) : Bool :=
  match perms.find? (fun p => p.id == pid) with
  | some p => p.is_active
  | none => false

/-- The direct permission set of a role: `self.permissions.filter(is_active=True)`
as a finite set of permission ids. -/
def directActivePerms (roles : List Role) (perms : List Permission) (rid : Nat) :
    Finset Nat :=
  match findRole roles rid with
  | some ro => (ro.permissions.filter (permIsActive perms)).toFinset
  | none => ∅

/-- Follow the `inherits_from` pointer of a stored role. -/
def parentOf (roles : List Role) (rid : Nat) : Option Nat :=
  match findRole roles rid with
  | some ro => ro.inherits_from
  | none => none

/-- The recursion of `Role.get_all_permissions`:
`set(self.permissions.filter(is_active=True))` unioned with the parent's
recursive result when `self.inherits_from` is set.  The source recursion has
no depth bound or visited set, so it is embedded with an explicit iteration
budget: `none` means the recursion did not finish within `fuel` nested calls,
and a result that is `none` for every budget models non-termination. -/
def get_all_permissionsF (roles : List Role) (perms : List Permission) :
    Nat → Nat → Option (Finset Nat)
  | 0, _ => none
  | fuel + 1, rid =>
    match parentOf roles rid with
    | none => some (directActivePerms roles perms rid)
    | some pid =>
      (get_all_permissionsF roles perms fuel pid).map
        (fun s => directActivePerms roles perms rid ∪ s)

/-- The ancestor chain of a role: the list of role ids reached by following
`inherits_from` pointers until `None`, or `none` when the walk does not reach
`None` within `fuel` steps (in particular on a cycle). -/
def ancestorChainF (roles : List Role) : Nat → Option Nat → Option (List Nat)
  | _, none => some []
  | 0, some _ => none
  | fuel + 1, some rid =>
    (ancestorChainF roles fuel (parentOf roles rid)).map (fun l => rid :: l)

/-- The circular-inheritance walk of `Role.clean`:
starting from `self.inherits_from`, follow parents; `some false` models the
`ValidationError('Circular role inheritance detected')` raised when the walk
meets the candidate itself, `some true` models the loop ending at a role with
no parent, and `none` means the `while parent:` loop did not exit within
`fuel` iterations. -/
def cleanCycleWalkF (roles : List Role) (selfId : Nat) :
    Nat → Option Nat → Option Bool
  | _, none => some true
  | 0, some _ => none
  | fuel + 1, some pid =>
    if pid == selfId then some false
    else cleanCycleWalkF roles selfId fuel (parentOf roles pid)

/-- The count of `Role.get_user_count`:
`self.user_roles.filter(is_active=True).count()` — the flag alone, with no
condition on `expires_at`. -/
def get_user_count (rows : List UserRole) (rid : Nat) : Nat :=
  (rows.filter (fun r => r.role == rid && r.is_active)).length

/-- The capacity check of `Role.can_assign_more_users`. -/
def can_assign_more_users (rows : List UserRole) (role : Role) : Bool :=
  match role.max_users with
  | none => true
  | some m => get_user_count rows role.id < m

/-- The `post_save` receiver `log_role_assignment` of `signals.py`: on a
created row it logs `assigned`; on a saved existing row it logs `revoked`
only when the row is inactive, and nothing otherwise.  It runs only on
`Model.save`, never on queryset `.update(...)`. -/
def log_role_assignment (created : Bool) (r : UserRole) : List RoleHistory :=
  if created then [⟨r.user, r.role, .assigned⟩]
  else if r.is_active then []
  else [⟨r.user, r.role, .revoked⟩]

/-- Row matches a (principal, role, context) identity triple — the
`get_or_create` lookup key. -/
def tripleMatchB (uid rid ctx : Nat) (r : UserRole) : Bool :=
  r.user == uid && r.role == rid && r.context == ctx

/-- Row matches the identity triple and is flagged active. -/
def activeTripleB (uid rid ctx : Nat) (r : UserRole) : Bool :=
  tripleMatchB uid rid ctx r && r.is_active

/-- The filter `user=..., is_primary=True, is_active=True` with
`exclude(id=exceptId)`, shared by the primary-clearing update and the
`UserRole.clean` check on saved rows. -/
def otherActivePrimaryB (uid exceptId : Nat) (r : UserRole) : Bool :=
  r.user == uid && r.is_primary && r.is_active && r.id != exceptId

/-- The queryset update shared by `assign_role_to_user` and
`set_primary_role`: clear `is_primary` on every other active assignment of
the user.  A queryset `.update` fires no signals, so no history is written
here. -/
def clearOtherPrimaries (rows : List UserRole) (uid keepId : Nat) : List UserRole :=
  rows.map (fun r =>
    if otherActivePrimaryB uid keepId r then {r with is_primary := false} else r)

/-- Persist a changed row: replace the row with the given primary key. -/
def updateRow (rows : List UserRole) (rid : Nat) (r' : UserRole) : List UserRole :=
  rows.map (fun r => if r.id == rid then r' else r)

/-- The existence test of `UserRole.clean` for new rows: any active primary
assignment of the user (`exclude(pk=None)` excludes nothing). -/
def hasActivePrimary (rows : List UserRole) (uid : Nat) : Bool :=
  rows.any (fun r => r.user == uid && r.is_primary && r.is_active)

/-- The existence test of `UserRole.clean` for saved rows: any active primary
assignment of the user other than the row itself. -/
def hasOtherActivePrimary (rows : List UserRole) (uid exceptId : Nat) : Bool :=
  rows.any (otherActivePrimaryB uid exceptId)

/-- The row inserted by the create branch of `get_or_create`, with the
`defaults` of `assign_role_to_user` and the next auto-increment key. -/
def newAssignRow (nextId userId : Nat) (role : Role) (assigned_by expires_at : Option Nat)
    (ctx : Nat) (is_primary : Bool) (notes : String) : UserRole :=
  ⟨nextId, userId, role.id, true, is_primary, expires_at, ctx, assigned_by, notes⟩

/-- The field updates of the reactivation branch of `assign_role_to_user`:
the row is reactivated, `expires_at` and `is_primary` are overwritten, and
`assigned_by`/`notes` only when truthy. -/
def reactivatedRow (row : UserRole) (assigned_by expires_at : Option Nat)
    (is_primary : Bool) (notes : String) : UserRole :=
  {row with
    is_active := true
    expires_at := expires_at
    is_primary := is_primary
    assigned_by := match assigned_by with | some a => some a | none => row.assigned_by
    notes := if notes ≠ "" then notes else row.notes}

/-- The service `UserRoleService.assign_role_to_user`.
The steps mirror the source: the capacity pre-check, then
`get_or_create(user=..., role=..., context=context or {})`; a created row runs
`UserRole.clean` (capacity again, then the primary check) inside its save and
fires the `assigned` signal; an existing row is reactivated and updated
(`assigned_by`/`notes` only when truthy), its save runs `clean` (the capacity
branch is skipped because the row has a pk) and fires `post_save` with
`created=False`; finally, when `is_primary` is requested, the other active
primary rows of the user are cleared by a queryset update. -/
def assign_role_to_user (db : Db) (userId : Nat) (role : Role)
    (assigned_by : Option Nat) (expires_at : Option Nat) (context? : Option Nat)
    (is_primary : Bool) (notes : String) : Except RbacError (Db × Nat) :=
  let context := context?.getD 0
  if ¬ can_assign_more_users db.userRoles role then .error .capacityExceeded
  else
    match db.userRoles.find? (tripleMatchB userId role.id context) with
    | none =>
      if ¬ can_assign_more_users db.userRoles role then .error .capacityExceeded
      else if is_primary && hasActivePrimary db.userRoles userId then .error .alreadyPrimary
      else
        let row := newAssignRow db.nextId userId role assigned_by expires_at context
          is_primary notes
        let rows1 := db.userRoles ++ [row]
        let hist1 := db.history ++ log_role_assignment true row
        let rows2 := if is_primary then clearOtherPrimaries rows1 userId row.id else rows1
        .ok ({db with userRoles := rows2, history := hist1, nextId := db.nextId + 1}, row.id)
    | some row =>
      let row' := reactivatedRow row assigned_by expires_at is_primary notes
      if row'.is_primary && hasOtherActivePrimary db.userRoles userId row.id then
        .error .alreadyPrimary
      else
        let rows1 := updateRow db.userRoles row.id row'
        let hist1 := db.history ++ log_role_assignment false row'
        let rows2 := if is_primary then clearOtherPrimaries rows1 userId row.id else rows1
        .ok ({db with userRoles := rows2, history := hist1}, row.id)

/-- The service `UserRoleService.revoke_role_from_user`: a queryset update of
the active rows matching the user and role (the service takes no context
argument), returning whether any row was affected.  The queryset `.update`
fires no `post_save` signal, so no history row is written. -/
def revoke_role_from_user (db : Db) (userId : Nat) (role : Role) : Bool × Db :=
  let matched := db.userRoles.filter
    (fun r => r.user == userId && r.role == role.id && r.is_active)
  let rows' := db.userRoles.map (fun r =>
    if r.user == userId && r.role == role.id && r.is_active then
      {r with is_active := false}
    else r)
  (decide (0 < matched.length), {db with userRoles := rows'})

/-- The service `UserRoleService.set_primary_role`: clear the other active
primary rows of the owner by a queryset update, then set the row primary and
save it (the save runs `UserRole.clean` and fires `post_save` with
`created=False`).  The row is addressed by its primary key, standing for the
`UserRole` instance the source receives. -/
def set_primary_role (db : Db) (urid : Nat) : Except RbacError Db :=
  match db.userRoles.find? (fun r => r.id == urid) with
  | none => .error .notFound
  | some row =>
    let rows1 := clearOtherPrimaries db.userRoles row.user urid
    let row' : UserRole := {row with is_primary := true}
    if row'.is_primary && hasOtherActivePrimary rows1 row.user urid then
      .error .alreadyPrimary
    else
      let rows2 := updateRow rows1 urid row'
      let hist1 := db.history ++ log_role_assignment false row'
      .ok {db with userRoles := rows2, history := hist1}

/-- The predicate of `UserRoleSelectors.get_expired_user_roles`:
`is_active=True, expires_at__lte=now` (rows with no expiry never match). -/
def dueForExpiry (now : Nat) (r : UserRole) : Bool :=
  r.is_active && match r.expires_at with
    | some t => decide (t ≤ now)
    | none => false

/-- The selector `UserRoleSelectors.get_expired_user_roles`. -/
def get_expired_user_roles (rows : List UserRole) (now : Nat) : List UserRole :=
  rows.filter (dueForExpiry now)

/-- The service `UserRoleService.expire_user_roles`.
The source counts the lazy queryset, runs `.update(is_active=False)` on it,
and then iterates the same queryset to create the `expired` history rows;
iterating re-executes the query against the updated table, which is modelled
by recomputing `get_expired_user_roles` on the new rows. -/
def expire_user_roles (db : Db) (now : Nat) : Nat × Db :=
  let expired := get_expired_user_roles db.userRoles now
  let count := expired.length
  let rows' := db.userRoles.map (fun r =>
    if dueForExpiry now r then {r with is_active := false} else r)
  let expired2 := get_expired_user_roles rows' now
  let hist' := db.history ++ expired2.map
    (fun r => (⟨r.user, r.role, .expired⟩ : RoleHistory))
  (count, {db with userRoles := rows', history := hist'})

/-- Whether the role referenced by a row exists and is active
(the `role__is_active=True` join condition). -/
def roleIsActive (roles : List Role) (rid : Nat) : Bool :=
  match findRole roles rid with
  | some ro => ro.is_active
  | none => false

/-- The filter of `UserRoleSelectors.get_user_active_roles`:
`user=..., is_active=True, role__is_active=True` and
`expires_at__isnull=True | expires_at__gt=now`. -/
def activeForUser (db : Db) (uid : Nat) (now : Nat) (r : UserRole) : Bool :=
  r.user == uid && r.is_active && roleIsActive db.roles r.role &&
    match r.expires_at with
    | some t => decide (now < t)
    | none => true

/-- The selector `UserRoleSelectors.get_user_active_roles`. -/
def get_user_active_roles (db : Db) (uid : Nat) (now : Nat) : List UserRole :=
  db.userRoles.filter (activeForUser db uid now)

/-- Level of a stored role, for the `ur.role.level` joins. -/
def roleLevelOf (roles : List Role) (rid : Nat) : Nat :=
  match findRole roles rid with
  | some ro => ro.level
  | none => 0

/-- The service `PermissionCheckService.get_user_role_level`: `0` when the
user has no active roles, otherwise the maximum `level` over them.  The
source reads nothing from the user except the rows keyed by its id — in
particular it never consults `is_superuser`.  Role levels are drawn from
`ROLE_LEVEL_CHOICES` (0–90, validated by `full_clean`), so folding Python's
`max` over the non-empty list with seed `0` agrees with the source. -/
def get_user_role_level (db : Db) (u : User) (now : Nat) : Nat :=
  let act := get_user_active_roles db u.id now
  if act.isEmpty then 0
  else (act.map (fun r => roleLevelOf db.roles r.role)).foldl Nat.max 0

/-- The `ROLE_LEVEL_CHOICES` ladder of the `Role` model. -/
def role_level_choices : List Nat := [0, 10, 20, 30, 40, 50, 60, 70, 80, 90]

/-- The maximum possible role level (the top of `ROLE_LEVEL_CHOICES`). -/
def maxPossibleRoleLevel : Nat := role_level_choices.foldl Nat.max 0

/-- The mutation alphabet of the assignment store that the primary-uniqueness
claim quantifies over: `Assign` and `SetPrimary` calls with arbitrary
arguments. -/
inductive RbacOp
  | assignOp (userId : Nat) (role : Role) (assigned_by : Option Nat)
      (expires_at : Option Nat) (context? : Option Nat) (is_primary : Bool)
      (notes : String)
  | setPrimaryOp (urid : Nat)

/-- Run one operation; a raised `ValidationError` rolls the transaction back,
leaving the store unchanged. -/
def applyOp (db : Db) : RbacOp → Db
  | .assignOp u ro ab ea c p n =>
    match assign_role_to_user db u ro ab ea c p n with
    | .ok (db', _) => db'
    | .error _ => db
  | .setPrimaryOp i =>
    match set_primary_role db i with
    | .ok db' => db'
    | .error _ => db

/-- A freshly provisioned store: a role/permission catalog and no
assignments or history yet. -/
def initDb (roles : List Role) (perms : List Permission) : Db :=
  ⟨roles, perms, [], [], 0, 0⟩

/-- Row is an active primary assignment of the user. -/
def isActivePrimaryFor (uid : Nat) (r : UserRole) : Bool :=
  r.user == uid && r.is_active && r.is_primary

/-- Number of active primary assignments of a user. -/
def activePrimaryCount (rows : List UserRole) (uid : Nat) : Nat :=
  rows.countP (isActivePrimaryFor uid)

/-- Primary keys of the stored assignment rows (the auto-increment column;
fresh and pairwise distinct in any reachable store). -/
def idsOf (rows : List UserRole) : List Nat := rows.map (fun r => r.id)

/-- Modelled from the spec: the logical-active counting rule of §3
("active" means `is_active AND (expires_at is null OR expires_at > now)`),
restricted to the assignments of one role — the count the capacity-check
claim says `Assign` compares against `max_users`. -/
def logicalActiveCountSpec (rows : List UserRole) (rid : Nat) (now : Nat) : Nat :=
  rows.countP (fun r => r.role == rid && r.is_active &&
    match r.expires_at with
    | some t => decide (now < t)
    | none => true)

/-- Union of the direct active permission sets over a list of roles (the
ancestor chain), the set `EffectivePermissions` is claimed to equal. -/
def chainUnion (roles : List Role) (perms : List Permission) (l : List Nat) : Finset Nat :=
  l.foldr (fun a s => directActivePerms roles perms a ∪ s) ∅

/-! Concrete fixtures used by counterexamples and witnesses. -/

/-- An empty store. -/
def dbEmpty : Db := initDb [] []

/-- A role with unlimited capacity. -/
def roleFree : Role := ⟨0, 10, true, false, none, none, []⟩

/-- A role with `max_users = 1`. -/
def roleCap1 : Role := ⟨0, 10, true, false, some 1, none, []⟩

/-- A role with `max_users = 0`. -/
def roleCap0 : Role := ⟨0, 10, true, false, some 0, none, []⟩

/-- An assignment that is still flagged active but expired at time 5. -/
def rowExpiredActive : UserRole := ⟨0, 0, 0, true, false, some 5, 0, none, ""⟩

/-- Store whose single capacity-1 role is held by one expired-but-unswept
assignment. -/
def dbExpiredHolder : Db := ⟨[roleCap1], [], [rowExpiredActive], [], 1, 0⟩

/-- An assignment of user 1 due for expiry at time 10. -/
def rowDue : UserRole := ⟨0, 1, 0, true, false, some 5, 0, none, ""⟩

/-- Store with one active assignment that is past its expiry. -/
def dbDue : Db := ⟨[roleFree], [], [rowDue], [], 1, 0⟩

/-- An inactive assignment of user 1 (a previously revoked row). -/
def rowInactive : UserRole := ⟨0, 1, 0, false, false, none, 0, none, ""⟩

/-- Store with one inactive assignment, ready for reactivation. -/
def dbInactive : Db := ⟨[roleFree], [], [rowInactive], [], 1, 0⟩

/-- Two active assignments of the same user and role under different
contexts. -/
def rowCtx1 : UserRole := ⟨0, 0, 0, true, false, none, 1, none, ""⟩

/-- Second context of the same (user, role) pair. -/
def rowCtx2 : UserRole := ⟨1, 0, 0, true, false, none, 2, none, ""⟩

/-- Store holding the two same-pair, different-context assignments. -/
def dbTwoCtx : Db := ⟨[roleFree], [], [rowCtx1, rowCtx2], [], 2, 0⟩

/-- Candidate role A whose parent is B. -/
def roleSelfA : Role := ⟨0, 10, true, false, none, some 1, []⟩

/-- Role B, parent C: one half of a stored 2-cycle. -/
def roleLoopB : Role := ⟨1, 10, true, false, none, some 2, [7]⟩

/-- Role C, parent B: the other half of the stored 2-cycle. -/
def roleLoopC : Role := ⟨2, 10, true, false, none, some 1, [8]⟩

/-- A stored role graph with an `inherits_from` cycle B↔C that does not pass
through the candidate role A. -/
def cyclicRoles : List Role := [roleSelfA, roleLoopB, roleLoopC]

/-- Three-level chain R→P→GP: the child role R. -/
def roleChainR : Role := ⟨0, 10, true, false, none, some 1, [100]⟩

/-- Three-level chain: the parent role P. -/
def roleChainP : Role := ⟨1, 20, true, false, none, some 2, [101]⟩

/-- Three-level chain: the grandparent role GP, owning one active and one
inactive permission. -/
def roleChainGP : Role := ⟨2, 30, true, false, none, none, [102, 103]⟩

/-- The three-level role graph. -/
def threeChainRoles : List Role := [roleChainR, roleChainP, roleChainGP]

/-- Permission catalog for the three-level chain; permission 103 is
inactive. -/
def chainPerms : List Permission :=
  [⟨100, ['a', '.', 'b'], ['a', 'b'], true⟩,
   ⟨101, ['c', '.', 'd'], ['c', 'd'], true⟩,
   ⟨102, ['e', '.', 'f'], ['e', 'f'], true⟩,
   ⟨103, ['g', '.', 'h'], ['g', 'h'], false⟩]

/-- A permission name with two separators. -/
def nameTwoDots : List Char := ['a', '.', 'b', '.', 'c']

/-- A permission name with no separator. -/
def nameNoDot : List Char := ['a', 'b']

/-- Store with two roles of level 30 and 50 both assigned to user 7. -/
def dbLevels : Db :=
  ⟨[⟨0, 30, true, false, none, none, []⟩, ⟨1, 50, true, false, none, none, []⟩], [],
    [⟨0, 7, 0, true, false, none, 0, none, ""⟩, ⟨1, 7, 1, true, false, none, 0, none, ""⟩],
    [], 2, 0⟩

/-- The store after the first successful assignment of user 0 to the
capacity-1 role. -/
def dbAfterFirstAssign : Db :=
  ⟨[roleCap1], [], [⟨0, 0, 0, true, false, none, 0, none, ""⟩], [⟨0, 0, .assigned⟩], 1, 0⟩

/-- The store after assigning the unlimited role to user 0 from a fresh
store. -/
def dbAfterFreeAssign : Db :=
  ⟨[roleFree], [], [⟨0, 0, 0, true, false, none, 0, none, ""⟩], [⟨0, 0, .assigned⟩], 1, 0⟩

/-! Helper lemmas (shared; none of them is a claim's theorem). -/

/-- One unfolding step of the clean walk inside the stored B↔C cycle: from
role 1 the walk moves to role 2 and back, never reaching `None` or the
candidate 0. -/
theorem cleanWalk_cycle_none :
    ∀ fuel, cleanCycleWalkF cyclicRoles 0 fuel (some 1) = none ∧
      cleanCycleWalkF cyclicRoles 0 fuel (some 2) = none := by
  intro fuel
  induction fuel with
  | zero => exact ⟨rfl, rfl⟩
  | succ n ih =>
    refine ⟨?_, ?_⟩
    · rw [show cleanCycleWalkF cyclicRoles 0 (n + 1) (some 1) =
        cleanCycleWalkF cyclicRoles 0 n (some 2) from rfl]
      exact ih.2
    · rw [show cleanCycleWalkF cyclicRoles 0 (n + 1) (some 2) =
        cleanCycleWalkF cyclicRoles 0 n (some 1) from rfl]
      exact ih.1

/-- The permission recursion likewise never returns inside the B↔C cycle. -/
theorem getAll_cycle_none :
    ∀ fuel, get_all_permissionsF cyclicRoles [] fuel 1 = none ∧
      get_all_permissionsF cyclicRoles [] fuel 2 = none := by
  intro fuel
  induction fuel with
  | zero => exact ⟨rfl, rfl⟩
  | succ n ih =>
    refine ⟨?_, ?_⟩
    · rw [show get_all_permissionsF cyclicRoles [] (n + 1) 1 =
        (get_all_permissionsF cyclicRoles [] n 2).map
          (fun s => directActivePerms cyclicRoles [] 1 ∪ s) from rfl, ih.2]
      rfl
    · rw [show get_all_permissionsF cyclicRoles [] (n + 1) 2 =
        (get_all_permissionsF cyclicRoles [] n 1).map
          (fun s => directActivePerms cyclicRoles [] 2 ∪ s) from rfl, ih.1]
      rfl

/-! Claim C10 — Permission name validation. -/

/-- Claim C10, counterexample: a permission name with two separators is
accepted by `create_permission` (the `Permission.clean` of the source only
tests `'.' not in name`), although the claim says names with two or more
separators are rejected. -/
theorem permission_two_separators_accepted :
    create_permission dbEmpty nameTwoDots ['a', 'b', 'c'] true =
      .ok (⟨[], [⟨0, nameTwoDots, ['a', 'b', 'c'], true⟩], [], [], 0, 1⟩, 0) ∧
    nameTwoDots.count '.' = 2 := by
  exact ⟨rfl, by decide⟩

/-- Claim C10, amended: creating or saving a `Permission` fails format
validation (storing nothing, since the error aborts the transaction) exactly
when the name contains no separator at all; any name with one or more
separators passes the format check. -/
theorem permission_clean_rejects_iff_no_separator :
    ∀ (db : Db) (name codename : List Char) (act : Bool),
      (create_permission db name codename act = .error .invalidFormat ↔
        name.count '.' = 0) ∧
      (permissionNameOk name = true ↔ 1 ≤ name.count '.') := by
  intro db name codename act
  have hok : permissionNameOk name = true ↔ 1 ≤ name.count '.' := by
    rw [permissionNameOk]
    rw [List.contains_iff_exists_mem_beq]
    constructor
    · rintro ⟨a, ha, hb⟩
      have : '.' = a := by simpa using hb
      subst this
      have := List.count_pos_iff.mpr ha
      omega
    · intro h
      have : ('.' : Char) ∈ name := List.count_pos_iff.mp (by omega)
      exact ⟨'.', this, by simp⟩
  refine ⟨?_, hok⟩
  by_cases h : permissionNameOk name
  · have hns : ¬ name.count '.' = 0 := by
      have := hok.mp h
      omega
    simp only [create_permission, h, not_true_eq_false, if_false]
    constructor
    · intro hcontra
      by_cases h1 : db.perms.any (fun p => p.name == name)
      · simp [h1] at hcontra
      · by_cases h2 : db.perms.any (fun p => p.codename == codename)
        · simp [h1, h2] at hcontra
        · simp [h1, h2] at hcontra
    · intro hc
      exact absurd hc hns
  · have : name.count '.' = 0 := by
      by_contra hne
      exact h (hok.mpr (by omega))
    simp [create_permission, h, this]

/-- Claim C10, witness for the amended theorem at a concrete input. -/
theorem permission_clean_rejects_no_separator_witness :
    create_permission dbEmpty nameNoDot ['a', 'b'] true = .error .invalidFormat :=
  (permission_clean_rejects_iff_no_separator dbEmpty nameNoDot ['a', 'b'] true).1.mpr
    (by decide)

/-! Helper lemmas about folding `Nat.max` (for the role-level maximum). -/

/-- The fold of `Nat.max` bounds its seed and every list element. -/
theorem foldl_max_le_bound :
    ∀ (l : List Nat) (a : Nat),
      a ≤ l.foldl Nat.max a ∧ ∀ x ∈ l, x ≤ l.foldl Nat.max a := by
  intro l
  induction l with
  | nil => intro a; simp
  | cons x xs ih =>
    intro a
    have h := ih (Nat.max a x)
    constructor
    · calc a ≤ Nat.max a x := Nat.le_max_left a x
        _ ≤ xs.foldl Nat.max (Nat.max a x) := h.1
    · intro y hy
      rcases List.mem_cons.mp hy with rfl | hxs
      · calc y ≤ Nat.max a y := Nat.le_max_right a y
          _ ≤ xs.foldl Nat.max (Nat.max a y) := h.1
      · exact h.2 y hxs

/-- The fold of `Nat.max` is the seed or some element. -/
theorem foldl_max_mem :
    ∀ (l : List Nat) (a : Nat), l.foldl Nat.max a = a ∨ l.foldl Nat.max a ∈ l := by
  intro l
  induction l with
  | nil => intro a; exact Or.inl rfl
  | cons x xs ih =>
    intro a
    rcases ih (Nat.max a x) with h | h
    · rcases Nat.le_total a x with hax | hxa
      · exact Or.inr (List.mem_cons.mpr (Or.inl (by
          simpa [Nat.max_eq_right hax] using h)))
      · exact Or.inl (by simpa [Nat.max_eq_left hxa] using h)
    · exact Or.inr (List.mem_cons.mpr (Or.inr h))

/-- On a non-empty list of naturals, folding `Nat.max` from `0` lands on an
element. -/
theorem foldl_max_zero_mem (l : List Nat) (h : l ≠ []) : l.foldl Nat.max 0 ∈ l := by
  rcases foldl_max_mem l 0 with h0 | hm
  · cases l with
    | nil => exact absurd rfl h
    | cons x xs =>
      have hx := (foldl_max_le_bound (x :: xs) 0).2 x (List.mem_cons_self x xs)
      have : x = 0 := by omega
      rw [h0]
      exact List.mem_cons.mpr (Or.inl this.symm)
  · exact hm

/-! Claim C7 — role level resolution. -/

/-- Claim C7, counterexample: `get_user_role_level` has no superuser branch;
for a superuser with no role assignments it returns 0, not the maximum
possible level (90, the top of `ROLE_LEVEL_CHOICES`). -/
theorem superuser_role_level_not_max :
    get_user_role_level dbEmpty ⟨0, true⟩ 0 = 0 ∧ maxPossibleRoleLevel = 90 ∧
    get_user_role_level dbEmpty ⟨0, true⟩ 0 ≠ maxPossibleRoleLevel := by
  refine ⟨rfl, rfl, by decide⟩

/-- Claim C7, amended: `get_user_role_level` returns the maximum `level`
across the principal's active assigned roles and 0 when there are none, and
it is independent of the `is_superuser` flag (the source never consults it;
the superuser bypass lives only in `user_meets_minimum_level`). -/
theorem get_user_role_level_max_and_no_bypass :
    ∀ (db : Db) (uid : Nat) (b1 b2 : Bool) (now : Nat),
      get_user_role_level db ⟨uid, b1⟩ now = get_user_role_level db ⟨uid, b2⟩ now ∧
      (get_user_active_roles db uid now = [] → get_user_role_level db ⟨uid, b1⟩ now = 0) ∧
      (∀ r ∈ get_user_active_roles db uid now,
        roleLevelOf db.roles r.role ≤ get_user_role_level db ⟨uid, b1⟩ now) ∧
      (get_user_active_roles db uid now ≠ [] →
        ∃ r ∈ get_user_active_roles db uid now,
          get_user_role_level db ⟨uid, b1⟩ now = roleLevelOf db.roles r.role) := by
  intro db uid b1 b2 now
  refine ⟨rfl, ?_, ?_, ?_⟩
  · intro h
    simp [get_user_role_level, h]
  · intro r hr
    have hnil : get_user_active_roles db uid now ≠ [] := by
      intro hnil
      rw [hnil] at hr
      exact absurd hr (List.not_mem_nil r)
    have hne : (get_user_active_roles db uid now).isEmpty = false := by
      simpa [List.isEmpty_iff] using hnil
    rw [get_user_role_level]
    simp only [hne, Bool.false_eq_true, if_false]
    exact (foldl_max_le_bound _ 0).2 _
      (List.mem_map_of_mem (fun r => roleLevelOf db.roles r.role) hr)
  · intro h
    have hne : (get_user_active_roles db uid now).isEmpty = false := by
      simpa [List.isEmpty_iff] using h
    have hmap : (get_user_active_roles db uid now).map
        (fun r => roleLevelOf db.roles r.role) ≠ [] := by
      simpa [List.map_eq_nil_iff] using h
    have hmem := foldl_max_zero_mem _ hmap
    obtain ⟨r, hr, hv⟩ := List.mem_map.mp hmem
    refine ⟨r, hr, ?_⟩
    rw [get_user_role_level]
    simp only [hne, Bool.false_eq_true, if_false]
    exact hv.symm

/-- Claim C7, witness for the amended theorem: a concrete two-role store. -/
theorem get_user_role_level_witness :
    get_user_role_level dbLevels ⟨7, true⟩ 0 = get_user_role_level dbLevels ⟨7, false⟩ 0 ∧
    ∃ r ∈ get_user_active_roles dbLevels 7 0,
      get_user_role_level dbLevels ⟨7, true⟩ 0 = roleLevelOf dbLevels.roles r.role :=
  ⟨(get_user_role_level_max_and_no_bypass dbLevels 7 true false 0).1,
    (get_user_role_level_max_and_no_bypass dbLevels 7 true false 0).2.2.2 (by decide)⟩

/-! Claim C9 — boundedness of the ancestor walks. -/

/-- Claim C9, counterexample: on the stored graph whose B↔C cycle does not
pass through the candidate A, neither the `Role.clean` cycle walk started at
A's parent nor `Role.get_all_permissions` on B returns within any iteration
budget — the source has no visited set or depth bound, so both loop
forever. -/
theorem ancestor_walks_diverge_on_foreign_cycle :
    roleSelfA.inherits_from = some 1 ∧
    (¬ ∃ fuel, (cleanCycleWalkF cyclicRoles 0 fuel roleSelfA.inherits_from).isSome) ∧
    (¬ ∃ fuel, (get_all_permissionsF cyclicRoles [] fuel 1).isSome) := by
  refine ⟨rfl, ?_, ?_⟩
  · rintro ⟨fuel, h⟩
    rw [show roleSelfA.inherits_from = some 1 from rfl,
      (cleanWalk_cycle_none fuel).1] at h
    simp at h
  · rintro ⟨fuel, h⟩
    rw [(getAll_cycle_none fuel).1] at h
    simp at h

/-- The clean walk returns (with either verdict) whenever the parent chain
from its start reaches `None` within the budget. -/
theorem cleanWalk_returns_of_chain :
    ∀ (roles : List Role) (selfId fuel : Nat) (start : Option Nat) (l : List Nat),
      ancestorChainF roles fuel start = some l →
      (cleanCycleWalkF roles selfId fuel start).isSome := by
  intro roles selfId fuel
  induction fuel with
  | zero =>
    intro start l h
    cases start with
    | none => simp [cleanCycleWalkF]
    | some rid => simp [ancestorChainF] at h
  | succ n ih =>
    intro start l h
    cases start with
    | none => simp [cleanCycleWalkF]
    | some rid =>
      by_cases hs : rid = selfId
      · simp [cleanCycleWalkF, hs]
      · rw [ancestorChainF] at h
        cases hc : ancestorChainF roles n (parentOf roles rid) with
        | none => rw [hc] at h; simp at h
        | some l' =>
          have := ih (parentOf roles rid) l' hc
          simpa [cleanCycleWalkF, hs] using this

/-- The permission recursion computes the deduplicated union of the direct
active permission sets along the ancestor chain. -/
theorem getAll_eq_chainUnion :
    ∀ (roles : List Role) (perms : List Permission) (fuel rid : Nat) (l : List Nat),
      ancestorChainF roles fuel (some rid) = some l →
      get_all_permissionsF roles perms fuel rid = some (chainUnion roles perms l) := by
  intro roles perms fuel
  induction fuel with
  | zero => intro rid l h; simp [ancestorChainF] at h
  | succ n ih =>
    intro rid l h
    rw [ancestorChainF] at h
    cases hc : ancestorChainF roles n (parentOf roles rid) with
    | none => rw [hc] at h; simp at h
    | some l' =>
      rw [hc] at h
      simp only [Option.map_some'] at h
      obtain rfl : rid :: l' = l := by simpa using h
      cases hp : parentOf roles rid with
      | none =>
        rw [hp] at hc
        have hl' : l' = [] := by
          cases n with
          | zero => simpa [ancestorChainF] using hc
          | succ m => simpa [ancestorChainF] using hc
        subst hl'
        simp only [get_all_permissionsF, hp]
        simp [chainUnion]
      | some pid =>
        rw [hp] at hc
        have hrec := ih pid l' hc
        simp only [get_all_permissionsF, hp, hrec, Option.map_some']
        rfl

/-- Membership in the chain union is membership in some ancestor's direct
active set. -/
theorem mem_chainUnion :
    ∀ (roles : List Role) (perms : List Permission) (l : List Nat) (pid : Nat),
      pid ∈ chainUnion roles perms l ↔
        ∃ a ∈ l, pid ∈ directActivePerms roles perms a := by
  intro roles perms l pid
  induction l with
  | nil => simp [chainUnion]
  | cons a l ih =>
    show pid ∈ directActivePerms roles perms a ∪ chainUnion roles perms l ↔ _
    rw [Finset.mem_union, ih]
    constructor
    · rintro (h | ⟨b, hb, hm⟩)
      · exact ⟨a, List.mem_cons_self a l, h⟩
      · exact ⟨b, List.mem_cons_of_mem a hb, hm⟩
    · rintro ⟨b, hb, hm⟩
      rcases List.mem_cons.mp hb with rfl | hb'
      · exact Or.inl hm
      · exact Or.inr ⟨b, hb', hm⟩

/-- Every member of a direct active set is an active permission. -/
theorem mem_directActive_isActive :
    ∀ (roles : List Role) (perms : List Permission) (rid pid : Nat),
      pid ∈ directActivePerms roles perms rid → permIsActive perms pid = true := by
  intro roles perms rid pid h
  rw [directActivePerms] at h
  cases hf : findRole roles rid with
  | none => rw [hf] at h; simp at h
  | some ro =>
    rw [hf] at h
    rw [List.mem_toFinset, List.mem_filter] at h
    exact h.2

/-- Claim C9, amended: the walks are bounded only by the data — whenever the
`inherits_from` chain from the examined role reaches a parentless role within
`fuel` steps (in particular on every acyclic stored graph), both the
`Role.clean` walk and `Role.get_all_permissions` return within that budget;
on a stored cycle that does not pass through the candidate they never return
(there is no visited-set guard). -/
theorem ancestor_walks_terminate_on_acyclic_chain :
    ∀ (roles : List Role) (perms : List Permission) (selfId fuel rid : Nat) (l : List Nat),
      ancestorChainF roles fuel (some rid) = some l →
      (cleanCycleWalkF roles selfId fuel (some rid)).isSome ∧
      (get_all_permissionsF roles perms fuel rid).isSome := by
  intro roles perms selfId fuel rid l h
  refine ⟨cleanWalk_returns_of_chain roles selfId fuel (some rid) l h, ?_⟩
  rw [getAll_eq_chainUnion roles perms fuel rid l h]
  rfl

/-- Claim C9, witness for the amended theorem on the acyclic three-level
chain. -/
theorem ancestor_walks_terminate_witness :
    ancestorChainF threeChainRoles 3 (some 0) = some [0, 1, 2] ∧
    (cleanCycleWalkF threeChainRoles 5 3 (some 0)).isSome ∧
    (get_all_permissionsF threeChainRoles chainPerms 3 0).isSome :=
  ⟨by decide,
    (ancestor_walks_terminate_on_acyclic_chain threeChainRoles chainPerms 5 3 0 [0, 1, 2]
      (by decide)).1,
    (ancestor_walks_terminate_on_acyclic_chain threeChainRoles chainPerms 5 3 0 [0, 1, 2]
      (by decide)).2⟩

/-! Claim C4 — effective permissions across the inheritance chain. -/

/-- Claim C4: for a role whose parent chain is acyclic (it reaches a
parentless role within the budget), `Role.get_all_permissions` equals the
deduplicated union of the direct active permission sets of the role and all
its ancestors; the set contains only active permissions, and the direct
active set of every ancestor — in a three-level chain R→P→GP in particular
GP's — is included transitively. -/
theorem get_all_permissions_union_over_chain :
    ∀ (roles : List Role) (perms : List Permission) (fuel rid : Nat) (l : List Nat),
      ancestorChainF roles fuel (some rid) = some l →
      get_all_permissionsF roles perms fuel rid = some (chainUnion roles perms l) ∧
      (∀ pid, pid ∈ chainUnion roles perms l ↔
        ∃ a ∈ l, pid ∈ directActivePerms roles perms a) ∧
      (∀ pid, pid ∈ chainUnion roles perms l → permIsActive perms pid = true) ∧
      ∀ a ∈ l, directActivePerms roles perms a ⊆ chainUnion roles perms l := by
  intro roles perms fuel rid l h
  refine ⟨getAll_eq_chainUnion roles perms fuel rid l h,
    fun pid => mem_chainUnion roles perms l pid, ?_, ?_⟩
  · intro pid hp
    obtain ⟨a, _, hmem⟩ := (mem_chainUnion roles perms l pid).mp hp
    exact mem_directActive_isActive roles perms a pid hmem
  · intro a ha pid hp
    exact (mem_chainUnion roles perms l pid).mpr ⟨a, ha, hp⟩

/-- Claim C4, witness: the three-level chain R→P→GP; the effective set of R
is the union over the chain `[0, 1, 2]`, equals `{100, 101, 102}` (the
inactive permission 103 is excluded), and includes GP's active permissions
transitively. -/
theorem get_all_permissions_union_witness :
    ancestorChainF threeChainRoles 3 (some 0) = some [0, 1, 2] ∧
    get_all_permissionsF threeChainRoles chainPerms 3 0 =
      some (chainUnion threeChainRoles chainPerms [0, 1, 2]) ∧
    chainUnion threeChainRoles chainPerms [0, 1, 2] = {100, 101, 102} ∧
    directActivePerms threeChainRoles chainPerms 2 ⊆
      chainUnion threeChainRoles chainPerms [0, 1, 2] :=
  ⟨by decide,
    (get_all_permissions_union_over_chain threeChainRoles chainPerms 3 0 [0, 1, 2]
      (by decide)).1,
    by decide,
    (get_all_permissions_union_over_chain threeChainRoles chainPerms 3 0 [0, 1, 2]
      (by decide)).2.2.2 2 (by decide)⟩

/-! Helper lemmas about the deactivate-matching-rows queryset updates. -/

/-- After mapping a deactivate-if-`p` update over the rows, no row satisfies
`p` any more, provided `p` requires the active flag. -/
theorem filter_after_deactivate_nil (p : UserRole → Bool) (rows : List UserRole)
    (hp : ∀ r : UserRole, p {r with is_active := false} = false) :
    (rows.map (fun r => if p r then {r with is_active := false} else r)).filter p = [] := by
  rw [List.filter_eq_nil_iff]
  intro r hr
  obtain ⟨r0, _, rfl⟩ := List.mem_map.mp hr
  by_cases hd : p r0
  · rw [if_pos hd, hp r0]
    simp
  · rw [if_neg hd]
    exact hd

/-- A deactivate-if-`p` update over rows none of which satisfy `p` is the
identity. -/
theorem map_deactivate_id_of_no_match (p : UserRole → Bool) (rows : List UserRole)
    (h : ∀ r ∈ rows, ¬ p r = true) :
    rows.map (fun r => if p r then {r with is_active := false} else r) = rows := by
  have : rows.map (fun r => if p r then {r with is_active := false} else r) =
      rows.map (fun r => r) := by
    apply List.map_congr_left
    intro r hr
    rw [if_neg (h r hr)]
  rw [this, List.map_id']

/-! Claim C1 — the expiration sweep. -/

/-- On a store with no row due for expiry, the sweep returns 0 and changes
nothing at all. -/
theorem expire_noop_of_no_due (db' : Db) (now : Nat)
    (h : get_expired_user_roles db'.userRoles now = []) :
    expire_user_roles db' now = (0, db') := by
  have hall : ∀ r ∈ db'.userRoles, ¬ dueForExpiry now r = true :=
    List.filter_eq_nil_iff.mp h
  have hrows : db'.userRoles.map (fun r =>
      if dueForExpiry now r then {r with is_active := false} else r) = db'.userRoles :=
    map_deactivate_id_of_no_match (dueForExpiry now) db'.userRoles hall
  show ((get_expired_user_roles db'.userRoles now).length,
    {db' with
      userRoles := db'.userRoles.map (fun r =>
        if dueForExpiry now r then {r with is_active := false} else r)
      history := db'.history ++ (get_expired_user_roles
        (db'.userRoles.map (fun r =>
          if dueForExpiry now r then {r with is_active := false} else r)) now).map
        (fun r => (⟨r.user, r.role, .expired⟩ : RoleHistory))}) = (0, db')
  rw [hrows, h]
  simp

/-- Claim C1: the sweep deactivates exactly the rows that are flagged active
with `expires_at ≤ now` (each such row has only its `is_active` flag
changed, every other row is untouched), returns their count, and an
immediately repeated sweep finds nothing, changes no row and appends no
further history entries. -/
theorem expire_due_exact_and_idempotent :
    ∀ (db : Db) (now : Nat),
      (expire_user_roles db now).1 = (db.userRoles.filter (dueForExpiry now)).length ∧
      (expire_user_roles db now).2.userRoles = db.userRoles.map
        (fun r => if dueForExpiry now r then {r with is_active := false} else r) ∧
      expire_user_roles (expire_user_roles db now).2 now = (0, (expire_user_roles db now).2) := by
  intro db now
  refine ⟨rfl, rfl, ?_⟩
  apply expire_noop_of_no_due
  exact filter_after_deactivate_nil (dueForExpiry now) db.userRoles
    (by intro r; simp [dueForExpiry])

/-! Claim C8 — revocation. -/

/-- Claim C8, counterexample: the source `revoke_role_from_user` takes no
context argument and deactivates the active assignments of the (user, role)
pair across all contexts, so its effect equals deactivate-exactly-the-triple
for no choice of context. -/
theorem revoke_deactivates_across_contexts :
    (revoke_role_from_user dbTwoCtx 0 roleFree).2.userRoles =
      [{rowCtx1 with is_active := false}, {rowCtx2 with is_active := false}] ∧
    ∀ ctx : Nat,
      (revoke_role_from_user dbTwoCtx 0 roleFree).2.userRoles ≠
        dbTwoCtx.userRoles.map (fun r =>
          if activeTripleB 0 roleFree.id ctx r then {r with is_active := false} else r) := by
  refine ⟨rfl, ?_⟩
  intro ctx h
  rw [show (revoke_role_from_user dbTwoCtx 0 roleFree).2.userRoles =
      [{rowCtx1 with is_active := false}, {rowCtx2 with is_active := false}] from rfl,
    show dbTwoCtx.userRoles = [rowCtx1, rowCtx2] from rfl,
    List.map_cons, List.map_cons, List.map_nil] at h
  simp only [List.cons.injEq, and_true] at h
  obtain ⟨h1, h2⟩ := h
  by_cases hb1 : activeTripleB 0 roleFree.id ctx rowCtx1
  · by_cases hb2 : activeTripleB 0 roleFree.id ctx rowCtx2
    · have e1 := hb1
      have e2 := hb2
      simp [activeTripleB, tripleMatchB, rowCtx1, roleFree] at e1
      simp [activeTripleB, tripleMatchB, rowCtx2, roleFree] at e2
      omega
    · rw [if_neg hb2] at h2
      have := congrArg UserRole.is_active h2
      simp [rowCtx2] at this
  · rw [if_neg hb1] at h1
    have := congrArg UserRole.is_active h1
    simp [rowCtx1] at this

/-- On a store with no active row of the (user, role) pair, revoking is a
no-op returning `false`. -/
theorem revoke_noop_of_no_match (db' : Db) (uid : Nat) (role : Role)
    (h : db'.userRoles.filter
      (fun r => r.user == uid && r.role == role.id && r.is_active) = []) :
    revoke_role_from_user db' uid role = (false, db') := by
  have hall := List.filter_eq_nil_iff.mp h
  have hrows : db'.userRoles.map (fun r =>
      if r.user == uid && r.role == role.id && r.is_active then
        {r with is_active := false} else r) = db'.userRoles :=
    map_deactivate_id_of_no_match _ db'.userRoles hall
  show (decide (0 < (db'.userRoles.filter
      (fun r => r.user == uid && r.role == role.id && r.is_active)).length),
    {db' with userRoles := db'.userRoles.map (fun r =>
      if r.user == uid && r.role == role.id && r.is_active then
        {r with is_active := false} else r)}) = (false, db')
  rw [h, hrows]
  simp

/-- Claim C8, amended: `revoke_role_from_user` deactivates exactly the
active assignments matching the (principal, role) pair — regardless of
context, which the service does not take — returns `true` iff at least one
row was affected, never raises (it is a total function), and a repeated or
pointless call is a no-op returning `false` and changing nothing. -/
theorem revoke_pair_exact_and_idempotent :
    ∀ (db : Db) (uid : Nat) (role : Role),
      ((revoke_role_from_user db uid role).1 = true ↔
        ∃ r ∈ db.userRoles, r.user = uid ∧ r.role = role.id ∧ r.is_active = true) ∧
      (revoke_role_from_user db uid role).2.userRoles = db.userRoles.map
        (fun r => if r.user == uid && r.role == role.id && r.is_active then
          {r with is_active := false} else r) ∧
      revoke_role_from_user (revoke_role_from_user db uid role).2 uid role =
        (false, (revoke_role_from_user db uid role).2) := by
  intro db uid role
  refine ⟨?_, rfl, ?_⟩
  · constructor
    · intro h
      have h' : 0 < (db.userRoles.filter
          (fun r => r.user == uid && r.role == role.id && r.is_active)).length :=
        of_decide_eq_true h
      obtain ⟨r, hr⟩ := List.exists_mem_of_length_pos h'
      have hm := List.mem_filter.mp hr
      refine ⟨r, hm.1, ?_⟩
      have hb := hm.2
      simp only [Bool.and_eq_true, beq_iff_eq] at hb
      exact ⟨hb.1.1, hb.1.2, hb.2⟩
    · rintro ⟨r, hr, hu, hro, ha⟩
      apply decide_eq_true
      apply List.length_pos_of_mem
      exact List.mem_filter.mpr ⟨hr, by simp [hu, hro, ha]⟩
  · apply revoke_noop_of_no_match
    exact filter_after_deactivate_nil _ db.userRoles (by intro r; simp)

/-- Claim C8, witness for the amended theorem: revoking the held pair
reports success. -/
theorem revoke_pair_witness : (revoke_role_from_user dbDue 1 roleFree).1 = true :=
  (revoke_pair_exact_and_idempotent dbDue 1 roleFree).1.mpr
    ⟨rowDue, by decide, rfl, rfl, rfl⟩

/-! Claim C3 — the capacity check. -/

/-- Claim C3, counterexample: the capacity-1 role is held only by an
expired-but-unswept assignment; its logical-active count at `now = 10` is 0,
yet `assign_role_to_user` for a fresh user fails with the capacity error —
`Role.can_assign_more_users` counts the `is_active` flag alone, not the
logical-active rule. -/
theorem capacity_counts_expired_assignment :
    assign_role_to_user dbExpiredHolder 1 roleCap1 none none none false "" =
      .error .capacityExceeded ∧
    logicalActiveCountSpec dbExpiredHolder.userRoles roleCap1.id 10 = 0 ∧
    roleCap1.max_users = some 1 := by
  exact ⟨rfl, by decide, rfl⟩

/-- Claim C3, amended: `assign_role_to_user` fails with the capacity error
(and, the transaction aborting, leaves every assignment unchanged) exactly
when the role has a non-null `max_users` and the number of its assignments
with `is_active = true` — counted by the flag alone, including rows whose
`expires_at` has already passed — has reached `max_users`; otherwise the
capacity check passes. -/
theorem assign_capacity_error_iff_flag_count :
    ∀ (db : Db) (uid : Nat) (role : Role) (ab ea c? : Option Nat) (p : Bool) (n : String),
      assign_role_to_user db uid role ab ea c? p n = .error .capacityExceeded ↔
        ∃ m, role.max_users = some m ∧ m ≤ get_user_count db.userRoles role.id := by
  intro db uid role ab ea c? p n
  by_cases hcan : can_assign_more_users db.userRoles role
  · constructor
    · intro h
      exfalso
      rw [assign_role_to_user] at h
      simp only [hcan, not_true_eq_false, if_false] at h
      split at h
      · split at h
        · simp at h
        · split at h
          · simp at h
          · simp at h
      · split at h
        · simp at h
        · simp at h
    · rintro ⟨m, hm, hle⟩
      exfalso
      rw [can_assign_more_users, hm] at hcan
      simp at hcan
      omega
  · constructor
    · intro _
      rw [can_assign_more_users] at hcan
      cases hmu : role.max_users with
      | none => rw [hmu] at hcan; simp at hcan
      | some m =>
        rw [hmu] at hcan
        simp at hcan
        exact ⟨m, rfl, hcan⟩
    · intro _
      rw [assign_role_to_user]
      simp [hcan]

/-- Claim C3, witness for the amended theorem: a zero-capacity role rejects
any assignment. -/
theorem assign_capacity_error_witness :
    assign_role_to_user (initDb [roleCap0] []) 3 roleCap0 none none none false "" =
      .error .capacityExceeded :=
  (assign_capacity_error_iff_flag_count (initDb [roleCap0] []) 3 roleCap0 none none none
    false "").mpr ⟨0, rfl, Nat.zero_le _⟩

/-! Claim C6 — idempotent assignment. -/

/-- Claim C6, counterexample: on a role with `max_users = 1`, calling
`assign_role_to_user` twice with identical arguments errors on the second
call — the capacity pre-check counts the caller's own existing row — instead
of idempotently reactivating it. -/
theorem assign_twice_errors_at_capacity :
    assign_role_to_user (initDb [roleCap1] []) 0 roleCap1 none none none false "" =
      .ok (dbAfterFirstAssign, 0) ∧
    assign_role_to_user dbAfterFirstAssign 0 roleCap1 none none none false "" =
      .error .capacityExceeded := ⟨rfl, rfl⟩

/-! Claim C2 — audit-trail completeness. -/

/-- Claim C2, evaluation at the failing inputs: the sweep deactivates the
due row and returns 1 but appends no `expired` history entry (the lazy
queryset is re-evaluated after the update); a successful revoke appends no
`revoked` entry (queryset `.update` fires no signal); reactivating an
inactive row appends no `assigned` entry (`post_save` runs with
`created=False` on an active row). -/
theorem audit_entries_missing_at_failing_inputs :
    ((expire_user_roles dbDue 10).1 = 1 ∧
      (expire_user_roles dbDue 10).2.userRoles = [{rowDue with is_active := false}] ∧
      (expire_user_roles dbDue 10).2.history = []) ∧
    ((revoke_role_from_user dbDue 1 roleFree).1 = true ∧
      (revoke_role_from_user dbDue 1 roleFree).2.history = []) ∧
    assign_role_to_user dbInactive 1 roleFree none none none false "" =
      .ok (⟨[roleFree], [], [{rowInactive with is_active := true}], [], 1, 0⟩, 0) := by
  exact ⟨⟨rfl, rfl, rfl⟩, ⟨rfl, rfl⟩, rfl⟩

/-! Counting toolkit for the primary-uniqueness and idempotence proofs. -/

/-- countP respects member-pointwise equal predicates. -/
theorem countP_congr_mem {α : Type} (l : List α) (p q : α → Bool)
    (h : ∀ x ∈ l, p x = q x) : l.countP p = l.countP q := by
  induction l with
  | nil => rfl
  | cons x xs ih =>
    rw [List.countP_cons, List.countP_cons, h x (List.mem_cons_self x xs),
      ih (fun y hy => h y (List.mem_cons_of_mem x hy))]

/-- countP over a mapped list, bounded pointwise on members. -/
theorem countP_map_le_of_imp {α : Type} (g : α → α) (p q : α → Bool) (l : List α)
    (h : ∀ x ∈ l, p (g x) = true → q x = true) :
    (l.map g).countP p ≤ l.countP q := by
  rw [List.countP_map]
  exact List.countP_mono_left (fun x hx => h x hx)

/-- countP over a mapped list, equal pointwise on members. -/
theorem countP_map_congr {α : Type} (g : α → α) (p q : α → Bool) (l : List α)
    (h : ∀ x ∈ l, p (g x) = q x) :
    (l.map g).countP p = l.countP q := by
  rw [List.countP_map]
  exact countP_congr_mem l _ _ (fun x hx => h x hx)

/-- Two distinct members both satisfying the predicate force a count of at
least two. -/
theorem two_le_countP_of_mem_ne {α : Type} (l : List α) (p : α → Bool) (a b : α)
    (ha : a ∈ l) (hb : b ∈ l) (hne : a ≠ b) (hpa : p a = true) (hpb : p b = true) :
    2 ≤ l.countP p := by
  induction l with
  | nil => cases ha
  | cons x xs ih =>
    rw [List.countP_cons]
    rcases List.mem_cons.mp ha with rfl | ha'
    · have hb' : b ∈ xs := by
        rcases List.mem_cons.mp hb with rfl | h
        · exact absurd rfl hne
        · exact h
      have hpos : 0 < xs.countP p := List.countP_pos_iff.mpr ⟨b, hb', hpb⟩
      rw [if_pos hpa]
      omega
    · rcases List.mem_cons.mp hb with rfl | hb'
      · have hpos : 0 < xs.countP p := List.countP_pos_iff.mpr ⟨a, ha', hpa⟩
        rw [if_pos hpb]
        omega
      · have := ih ha' hb'
        omega

/-- Under a count bound of one, two members satisfying the predicate are
equal. -/
theorem eq_of_countP_le_one {α : Type} (l : List α) (p : α → Bool)
    (h : l.countP p ≤ 1) (a b : α) (ha : a ∈ l) (hb : b ∈ l)
    (hpa : p a = true) (hpb : p b = true) : a = b := by
  by_contra hne
  have := two_le_countP_of_mem_ne l p a b ha hb hne hpa hpb
  omega

/-- find? commutes with a map that preserves the predicate on members. -/
theorem find?_map_of_pred_eq {α : Type} (g : α → α) (p : α → Bool) (l : List α)
    (h : ∀ x ∈ l, p (g x) = p x) :
    (l.map g).find? p = (l.find? p).map g := by
  induction l with
  | nil => rfl
  | cons x xs ih =>
    rw [List.map_cons]
    by_cases hx : p x = true
    · rw [List.find?_cons_of_pos _ ((h x (List.mem_cons_self x xs)).trans hx),
        List.find?_cons_of_pos _ hx, Option.map_some']
    · have hx' : p x = false := by
        revert hx
        cases p x <;> simp
      rw [List.find?_cons_of_neg _ (by rw [h x (List.mem_cons_self x xs), hx']; simp),
        List.find?_cons_of_neg _ (by rw [hx']; simp),
        ih (fun y hy => h y (List.mem_cons_of_mem x hy))]

/-- Clearing primaries never touches a row's key. -/
theorem idsOf_clearOtherPrimaries (rows : List UserRole) (uid keep : Nat) :
    idsOf (clearOtherPrimaries rows uid keep) = idsOf rows := by
  rw [idsOf, idsOf, clearOtherPrimaries, List.map_map]
  apply List.map_congr_left
  intro r _
  by_cases h : otherActivePrimaryB uid keep r = true
  · simp [Function.comp_apply, h]
  · simp [Function.comp_apply, h]

/-- Replacing a row by one with the same key preserves the key list. -/
theorem idsOf_updateRow (rows : List UserRole) (k : Nat) (r' : UserRole)
    (h : r'.id = k) : idsOf (updateRow rows k r') = idsOf rows := by
  rw [idsOf, idsOf, updateRow, List.map_map]
  apply List.map_congr_left
  intro r _
  by_cases hb : (r.id == k) = true
  · show (if r.id == k then r' else r).id = r.id
    rw [if_pos hb, h]
    exact (beq_iff_eq.mp hb).symm
  · show (if r.id == k then r' else r).id = r.id
    rw [if_neg (by simp [hb])]

/-- Key list of an appended row. -/
theorem idsOf_append (rows : List UserRole) (r : UserRole) :
    idsOf (rows ++ [r]) = idsOf rows ++ [r.id] := by
  rw [idsOf, List.map_append]
  rfl

/-- Rows with a given key, counted through the key list. -/
theorem countP_id_eq (rows : List UserRole) (k : Nat) :
    rows.countP (fun r => r.id == k) = (idsOf rows).countP (fun i => i == k) := by
  rw [idsOf, List.countP_map]
  rfl

/-- With nodup keys, at most one row has a given key. -/
theorem countP_id_le_one (rows : List UserRole) (h : (idsOf rows).Nodup) (k : Nat) :
    rows.countP (fun r => r.id == k) ≤ 1 := by
  rw [countP_id_eq]
  have hcount := List.nodup_iff_count_le_one.mp h k
  exact hcount

/-- With fresh keys, no row carries the next key yet. -/
theorem countP_id_next_zero (rows : List UserRole) (n : Nat)
    (h : ∀ i ∈ idsOf rows, i < n) :
    rows.countP (fun r => r.id == n) = 0 := by
  rw [List.countP_eq_zero]
  intro r hr hb
  have hlt : r.id < n := h r.id (List.mem_map_of_mem _ hr)
  have : r.id = n := beq_iff_eq.mp hb
  omega

/-- A row untouched by the clearing update that is still an active primary of
the user must be the kept row. -/
theorem primary_survivor_id (uid keep : Nat) (x : UserRole)
    (hc : ¬ otherActivePrimaryB uid keep x = true)
    (hax : isActivePrimaryFor uid x = true) : x.id = keep := by
  by_contra hne
  apply hc
  simp only [otherActivePrimaryB, isActivePrimaryFor, Bool.and_eq_true] at hax ⊢
  exact ⟨⟨⟨hax.1.1, hax.2⟩, hax.1.2⟩, bne_iff_ne.mpr hne⟩

/-- After clearing, any remaining active primary of the user is the kept
row. -/
theorem clear_active_primary_id {rows : List UserRole} {uid keep : Nat} {x : UserRole}
    (hx : x ∈ clearOtherPrimaries rows uid keep)
    (hax : isActivePrimaryFor uid x = true) : x.id = keep := by
  rw [clearOtherPrimaries] at hx
  obtain ⟨x0, _, rfl⟩ := List.mem_map.mp hx
  by_cases hc : otherActivePrimaryB uid keep x0 = true
  · rw [if_pos hc] at hax
    simp [isActivePrimaryFor] at hax
  · rw [if_neg hc] at hax
    rw [if_neg hc]
    exact primary_survivor_id uid keep x0 hc hax

/-- After the clearing update the user's active primaries all sit on the kept
key. -/
theorem clear_count_le_keep (rows : List UserRole) (uid keep : Nat) :
    (clearOtherPrimaries rows uid keep).countP (isActivePrimaryFor uid) ≤
      rows.countP (fun r => r.id == keep) := by
  rw [clearOtherPrimaries]
  apply countP_map_le_of_imp
  intro x _ hx
  by_cases hc : otherActivePrimaryB uid keep x = true
  · rw [if_pos hc] at hx
    simp [isActivePrimaryFor] at hx
  · rw [if_neg hc] at hx
    exact beq_iff_eq.mpr (primary_survivor_id uid keep x hc hx)

/-- The clearing update never creates a new active primary. -/
theorem clear_count_le (rows : List UserRole) (uid keep u' : Nat) :
    (clearOtherPrimaries rows uid keep).countP (isActivePrimaryFor u') ≤
      rows.countP (isActivePrimaryFor u') := by
  rw [clearOtherPrimaries]
  apply countP_map_le_of_imp
  intro x _ hx
  by_cases hc : otherActivePrimaryB uid keep x = true
  · rw [if_pos hc] at hx
    simp [isActivePrimaryFor] at hx
  · rwa [if_neg hc] at hx

/-- After the clearing update, the clean check for the kept row passes. -/
theorem hasOther_clear_self (rows : List UserRole) (uid keep : Nat) :
    hasOtherActivePrimary (clearOtherPrimaries rows uid keep) uid keep = false := by
  rw [hasOtherActivePrimary, List.any_eq_false]
  intro x hx
  rw [clearOtherPrimaries] at hx
  obtain ⟨x0, _, rfl⟩ := List.mem_map.mp hx
  by_cases hc : otherActivePrimaryB uid keep x0 = true
  · rw [if_pos hc]
    simp [otherActivePrimaryB]
  · rw [if_neg hc]
    exact hc

/-- The clearing update is idempotent. -/
theorem clear_idem (rows : List UserRole) (uid keep : Nat) :
    clearOtherPrimaries (clearOtherPrimaries rows uid keep) uid keep =
      clearOtherPrimaries rows uid keep := by
  show (clearOtherPrimaries rows uid keep).map _ = _
  rw [clearOtherPrimaries, List.map_map]
  apply List.map_congr_left
  intro x _
  show (fun r => if otherActivePrimaryB uid keep r then {r with is_primary := false} else r)
    ((fun r => if otherActivePrimaryB uid keep r then {r with is_primary := false} else r) x) =
    (fun r => if otherActivePrimaryB uid keep r then {r with is_primary := false} else r) x
  by_cases hc : otherActivePrimaryB uid keep x = true
  · have hfalse : otherActivePrimaryB uid keep {x with is_primary := false} = false := by
      simp [otherActivePrimaryB]
    simp [hc, hfalse]
  · simp [hc]

/-- Case analysis of a successful `assign_role_to_user`: the call either
created the row (no row matched the identity triple; the new row gets the
next key, an `assigned` history entry is appended, and the create-path clean
check guarantees no pre-existing active primary when `is_primary` was
requested) or reactivated the matching row (keys, counter and history are
unchanged, and the save-path clean check guarantees no other active
primary). -/
theorem assign_ok_cases (db : Db) (u : Nat) (ro : Role) (ab ea c? : Option Nat)
    (p : Bool) (n : String) (db' : Db) (x : Nat)
    (h : assign_role_to_user db u ro ab ea c? p n = .ok (db', x)) :
    (db.userRoles.find? (tripleMatchB u ro.id (c?.getD 0)) = none ∧
      x = db.nextId ∧
      db'.userRoles = (if p then
        clearOtherPrimaries
          (db.userRoles ++ [newAssignRow db.nextId u ro ab ea (c?.getD 0) p n]) u db.nextId
      else db.userRoles ++ [newAssignRow db.nextId u ro ab ea (c?.getD 0) p n]) ∧
      db'.roles = db.roles ∧ db'.nextId = db.nextId + 1 ∧
      db'.history = db.history ++ [⟨u, ro.id, .assigned⟩] ∧
      (p = true → hasActivePrimary db.userRoles u = false)) ∨
    (∃ row, db.userRoles.find? (tripleMatchB u ro.id (c?.getD 0)) = some row ∧
      x = row.id ∧
      db'.userRoles = (if p then
        clearOtherPrimaries
          (updateRow db.userRoles row.id (reactivatedRow row ab ea p n)) u row.id
      else updateRow db.userRoles row.id (reactivatedRow row ab ea p n)) ∧
      db'.roles = db.roles ∧ db'.nextId = db.nextId ∧ db'.history = db.history ∧
      (p = true → hasOtherActivePrimary db.userRoles u row.id = false)) := by
  rw [assign_role_to_user] at h
  by_cases hcan : can_assign_more_users db.userRoles ro = true
  · rw [if_neg (not_not_intro hcan)] at h
    cases hf : db.userRoles.find? (tripleMatchB u ro.id (c?.getD 0)) with
    | none =>
      rw [hf] at h
      rw [if_neg (not_not_intro hcan)] at h
      by_cases hp2 : (p && hasActivePrimary db.userRoles u) = true
      · rw [if_pos hp2] at h
        cases h
      · rw [if_neg hp2] at h
        rw [Except.ok.injEq, Prod.mk.injEq] at h
        obtain ⟨hdb, hx⟩ := h
        subst hdb
        refine Or.inl ⟨rfl, hx.symm, rfl, rfl, rfl, rfl, ?_⟩
        intro hp
        subst hp
        simpa using hp2
    | some row =>
      rw [hf] at h
      simp only [] at h
      by_cases hp2 : ((reactivatedRow row ab ea p n).is_primary &&
          hasOtherActivePrimary db.userRoles u row.id) = true
      · rw [if_pos hp2] at h
        cases h
      · rw [if_neg hp2] at h
        rw [Except.ok.injEq, Prod.mk.injEq] at h
        obtain ⟨hdb, hx⟩ := h
        subst hdb
        refine Or.inr ⟨row, rfl, hx.symm, ?_, rfl, rfl, ?_, ?_⟩
        · show (if p then _ else _) = _
          rfl
        · show db.history ++ log_role_assignment false (reactivatedRow row ab ea p n) =
            db.history
          rw [show log_role_assignment false (reactivatedRow row ab ea p n) = [] from rfl]
          exact List.append_nil _
        · intro hp
          have hpr : (reactivatedRow row ab ea p n).is_primary = true := hp
          rw [hpr] at hp2
          simpa using hp2
  · rw [if_pos hcan] at h
    cases h

/-- Case analysis of a successful `set_primary_role`: the row exists, the
other active primaries of its owner are cleared, and the row is saved with
`is_primary := true` under its own key. -/
theorem set_primary_ok_cases (db : Db) (i : Nat) (db' : Db)
    (h : set_primary_role db i = .ok db') :
    ∃ row, db.userRoles.find? (fun r => r.id == i) = some row ∧
      db'.userRoles = updateRow (clearOtherPrimaries db.userRoles row.user i) i
        {row with is_primary := true} ∧
      db'.roles = db.roles ∧ db'.nextId = db.nextId := by
  rw [set_primary_role] at h
  cases hf : db.userRoles.find? (fun r => r.id == i) with
  | none =>
    rw [hf] at h
    cases h
  | some row =>
    rw [hf] at h
    simp only [] at h
    by_cases hp2 : (({row with is_primary := true} : UserRole).is_primary &&
        hasOtherActivePrimary (clearOtherPrimaries db.userRoles row.user i) row.user i) = true
    · rw [if_pos hp2] at h
      cases h
    · rw [if_neg hp2] at h
      rw [Except.ok.injEq] at h
      subst h
      exact ⟨row, rfl, rfl, rfl, rfl⟩

/-- One `Assign` or `SetPrimary` step preserves key freshness, key
distinctness, and the at-most-one-active-primary bound for every
principal. -/
theorem step_preserves_inv (db : Db) (op : RbacOp)
    (h1 : ∀ i ∈ idsOf db.userRoles, i < db.nextId)
    (h2 : (idsOf db.userRoles).Nodup)
    (h3 : ∀ u', activePrimaryCount db.userRoles u' ≤ 1) :
    (∀ i ∈ idsOf (applyOp db op).userRoles, i < (applyOp db op).nextId) ∧
    ((idsOf (applyOp db op).userRoles).Nodup) ∧
    (∀ u', activePrimaryCount (applyOp db op).userRoles u' ≤ 1) := by
  cases op with
  | assignOp u ro ab ea c p n =>
    cases hres : assign_role_to_user db u ro ab ea c p n with
    | error e =>
      have hid : applyOp db (.assignOp u ro ab ea c p n) = db := by
        simp [applyOp, hres]
      rw [hid]
      exact ⟨h1, h2, h3⟩
    | ok res =>
      obtain ⟨db', x⟩ := res
      have hid : applyOp db (.assignOp u ro ab ea c p n) = db' := by
        simp [applyOp, hres]
      rw [hid]
      rcases assign_ok_cases db u ro ab ea c p n db' x hres with
        ⟨hf, hx, hrows, hroles, hnext, hhist, hprim⟩ |
        ⟨row, hf, hx, hrows, hroles, hnext, hhist, hprim⟩
      · -- create branch
        have hids : idsOf db'.userRoles = idsOf db.userRoles ++ [db.nextId] := by
          rw [hrows]
          by_cases hp : p = true
          · rw [if_pos hp, idsOf_clearOtherPrimaries, idsOf_append]
            rfl
          · rw [if_neg hp, idsOf_append]
            rfl
        refine ⟨?_, ?_, ?_⟩
        · intro i hi
          rw [hids] at hi
          rw [hnext]
          rcases List.mem_append.mp hi with hiold | hinew
          · exact Nat.lt_succ_of_lt (h1 i hiold)
          · have : i = db.nextId := by simpa using hinew
            omega
        · rw [hids, List.nodup_append]
          refine ⟨h2, List.nodup_singleton _, ?_⟩
          intro a ha hb
          have hadn : a = db.nextId := by simpa using hb
          rw [hadn] at ha
          exact absurd (h1 _ ha) (by omega)
        · intro u'
          rw [activePrimaryCount, hrows]
          by_cases hp : p = true
          · rw [if_pos hp]
            by_cases hu : u' = u
            · subst hu
              have hb := clear_count_le_keep
                (db.userRoles ++ [newAssignRow db.nextId u' ro ab ea (c.getD 0) p n])
                u' db.nextId
              have hz := countP_id_next_zero db.userRoles db.nextId h1
              have happ : (db.userRoles ++
                  [newAssignRow db.nextId u' ro ab ea (c.getD 0) p n]).countP
                  (fun r => r.id == db.nextId) = 1 := by
                rw [List.countP_append, hz]
                simp [newAssignRow]
              omega
            · have hb := clear_count_le
                (db.userRoles ++ [newAssignRow db.nextId u ro ab ea (c.getD 0) p n])
                u db.nextId u'
              have hne : ((newAssignRow db.nextId u ro ab ea (c.getD 0) p n).user == u') =
                  false := by
                simp [newAssignRow]
                exact fun hh => hu hh.symm
              have happ : (db.userRoles ++
                  [newAssignRow db.nextId u ro ab ea (c.getD 0) p n]).countP
                  (isActivePrimaryFor u') =
                  db.userRoles.countP (isActivePrimaryFor u') := by
                rw [List.countP_append]
                have : isActivePrimaryFor u'
                    (newAssignRow db.nextId u ro ab ea (c.getD 0) p n) = false := by
                  rw [isActivePrimaryFor, hne]
                  rfl
                simp [this]
              have := h3 u'
              rw [activePrimaryCount] at this
              omega
          · rw [if_neg hp]
            have hpf : p = false := by
              revert hp
              cases p <;> simp
            rw [List.countP_append]
            have hnp : isActivePrimaryFor u'
                (newAssignRow db.nextId u ro ab ea (c.getD 0) p n) = false := by
              simp [isActivePrimaryFor, newAssignRow, hpf]
            have hsing : List.countP (isActivePrimaryFor u')
                [newAssignRow db.nextId u ro ab ea (c.getD 0) p n] = 0 := by
              simp [List.countP_cons, hnp]
            have := h3 u'
            rw [activePrimaryCount] at this
            omega
      · -- reactivate branch
        have hrid : (reactivatedRow row ab ea p n).id = row.id := rfl
        have huser : row.user = u := by
          have := List.find?_some hf
          rw [tripleMatchB] at this
          simp only [Bool.and_eq_true, beq_iff_eq] at this
          exact this.1.1
        have hids : idsOf db'.userRoles = idsOf db.userRoles := by
          rw [hrows]
          by_cases hp : p = true
          · rw [if_pos hp, idsOf_clearOtherPrimaries, idsOf_updateRow _ _ _ hrid]
          · rw [if_neg hp, idsOf_updateRow _ _ _ hrid]
        refine ⟨?_, ?_, ?_⟩
        · intro i hi
          rw [hids] at hi
          rw [hnext]
          exact h1 i hi
        · rw [hids]
          exact h2
        · intro u'
          rw [activePrimaryCount, hrows]
          by_cases hp : p = true
          · rw [if_pos hp]
            by_cases hu : u' = u
            · subst hu
              have hb := clear_count_le_keep
                (updateRow db.userRoles row.id (reactivatedRow row ab ea p n)) u' row.id
              have hidu : (updateRow db.userRoles row.id
                  (reactivatedRow row ab ea p n)).countP (fun r => r.id == row.id) =
                  db.userRoles.countP (fun r => r.id == row.id) := by
                rw [countP_id_eq, countP_id_eq, idsOf_updateRow _ _ _ hrid]
              have hle1 := countP_id_le_one db.userRoles h2 row.id
              omega
            · have hb := clear_count_le
                (updateRow db.userRoles row.id (reactivatedRow row ab ea p n)) u row.id u'
              have hupd : (updateRow db.userRoles row.id
                  (reactivatedRow row ab ea p n)).countP (isActivePrimaryFor u') ≤
                  db.userRoles.countP (isActivePrimaryFor u') := by
                rw [updateRow]
                apply countP_map_le_of_imp
                intro y _ hy
                by_cases hb2 : (y.id == row.id) = true
                · rw [if_pos hb2] at hy
                  exfalso
                  have hru : (reactivatedRow row ab ea p n).user = row.user := rfl
                  rw [isActivePrimaryFor, hru, huser] at hy
                  simp only [Bool.and_eq_true, beq_iff_eq] at hy
                  exact hu hy.1.1.symm
                · rwa [if_neg hb2] at hy
              have := h3 u'
              rw [activePrimaryCount] at this
              omega
          · rw [if_neg hp]
            have hpf : p = false := by
              revert hp
              cases p <;> simp
            have := h3 u'
            rw [activePrimaryCount] at this
            refine le_trans ?_ this
            rw [updateRow]
            apply countP_map_le_of_imp
            intro y _ hy
            by_cases hb2 : (y.id == row.id) = true
            · rw [if_pos hb2] at hy
              exfalso
              have hrp : (reactivatedRow row ab ea p n).is_primary = p := rfl
              rw [isActivePrimaryFor, hrp, hpf] at hy
              simp at hy
            · rwa [if_neg hb2] at hy
  | setPrimaryOp i =>
    cases hres : set_primary_role db i with
    | error e =>
      have hid : applyOp db (.setPrimaryOp i) = db := by
        simp [applyOp, hres]
      rw [hid]
      exact ⟨h1, h2, h3⟩
    | ok db' =>
      have hid : applyOp db (.setPrimaryOp i) = db' := by
        simp [applyOp, hres]
      rw [hid]
      obtain ⟨row, hf, hrows, hroles, hnext⟩ := set_primary_ok_cases db i db' hres
      have hri : row.id = i := by
        have := List.find?_some hf
        exact beq_iff_eq.mp this
      have hrid : ({row with is_primary := true} : UserRole).id = i := hri
      have hids : idsOf db'.userRoles = idsOf db.userRoles := by
        rw [hrows, idsOf_updateRow _ _ _ hrid, idsOf_clearOtherPrimaries]
      refine ⟨?_, ?_, ?_⟩
      · intro j hj
        rw [hids] at hj
        rw [hnext]
        exact h1 j hj
      · rw [hids]
        exact h2
      · intro u'
        rw [activePrimaryCount, hrows]
        by_cases hu : u' = row.user
        · subst hu
          have hstep : (updateRow (clearOtherPrimaries db.userRoles row.user i) i
              {row with is_primary := true}).countP (isActivePrimaryFor row.user) ≤
              (clearOtherPrimaries db.userRoles row.user i).countP
                (fun r => r.id == i) := by
            rw [updateRow]
            apply countP_map_le_of_imp
            intro y hy hay
            by_cases hb2 : (y.id == i) = true
            · exact hb2
            · rw [if_neg hb2] at hay
              exact absurd (beq_iff_eq.mpr (clear_active_primary_id hy hay)) hb2
          have hcl : (clearOtherPrimaries db.userRoles row.user i).countP
              (fun r => r.id == i) = db.userRoles.countP (fun r => r.id == i) := by
            rw [countP_id_eq, countP_id_eq, idsOf_clearOtherPrimaries]
          have hle1 := countP_id_le_one db.userRoles h2 i
          omega
        · have hupd : (updateRow (clearOtherPrimaries db.userRoles row.user i) i
              {row with is_primary := true}).countP (isActivePrimaryFor u') ≤
              (clearOtherPrimaries db.userRoles row.user i).countP
                (isActivePrimaryFor u') := by
            rw [updateRow]
            apply countP_map_le_of_imp
            intro y _ hy
            by_cases hb2 : (y.id == i) = true
            · rw [if_pos hb2] at hy
              exfalso
              rw [isActivePrimaryFor] at hy
              simp only [Bool.and_eq_true, beq_iff_eq] at hy
              exact hu hy.1.1.symm
            · rwa [if_neg hb2] at hy
          have hcl := clear_count_le db.userRoles row.user i u'
          have := h3 u'
          rw [activePrimaryCount] at this
          omega

/-- Folding any operation sequence preserves the primary bound. -/
theorem foldl_preserves_prim (ops : List RbacOp) :
    ∀ (db : Db), (∀ i ∈ idsOf db.userRoles, i < db.nextId) →
      (idsOf db.userRoles).Nodup →
      (∀ u', activePrimaryCount db.userRoles u' ≤ 1) →
      ∀ u', activePrimaryCount ((ops.foldl applyOp db).userRoles) u' ≤ 1 := by
  induction ops with
  | nil => intro db _ _ h3 u'; exact h3 u'
  | cons op ops ih =>
    intro db h1 h2 h3 u'
    have hstep := step_preserves_inv db op h1 h2 h3
    exact ih (applyOp db op) hstep.1 hstep.2.1 hstep.2.2 u'

/-! Claim C5 — at most one active primary per principal. -/

/-- Claim C5: starting from a freshly provisioned store, after any sequence
of `Assign` and `SetPrimary` operations — including assigns with
`is_primary = true` across different roles, with failed operations rolled
back — every principal has at most one active assignment flagged
`is_primary`. -/
theorem primary_role_at_most_one_after_ops :
    ∀ (roles : List Role) (perms : List Permission) (ops : List RbacOp) (u : Nat),
      activePrimaryCount ((ops.foldl applyOp (initDb roles perms)).userRoles) u ≤ 1 := by
  intro roles perms ops u
  apply foldl_preserves_prim ops (initDb roles perms)
  · intro i hi
    simp [initDb, idsOf] at hi
  · simp [initDb, idsOf]
  · intro u'
    simp [initDb, activePrimaryCount]

/-! Helper lemmas for the idempotent-assignment analysis. -/

/-- Reapplying the reactivation field updates with the same arguments is the
identity. -/
theorem reactivatedRow_idem (row : UserRole) (ab ea : Option Nat) (p : Bool) (n : String) :
    reactivatedRow (reactivatedRow row ab ea p n) ab ea p n =
      reactivatedRow row ab ea p n := by
  cases row
  cases ab <;> by_cases hn : n ≠ "" <;> simp [reactivatedRow, hn]

/-- Reactivating a just-created row with the same arguments is the
identity. -/
theorem reactivatedRow_new (nextId u : Nat) (ro : Role) (ab ea : Option Nat)
    (ctx : Nat) (p : Bool) (n : String) :
    reactivatedRow (newAssignRow nextId u ro ab ea ctx p n) ab ea p n =
      newAssignRow nextId u ro ab ea ctx p n := by
  cases ab <;> by_cases hn : n ≠ "" <;> simp [reactivatedRow, newAssignRow, hn]

/-- Replacing a key by the row already stored under it changes nothing. -/
theorem updateRow_self (rows : List UserRole) (k : Nat) (r' : UserRole)
    (h : ∀ y ∈ rows, (y.id == k) = true → y = r') :
    updateRow rows k r' = rows := by
  rw [updateRow]
  have hcongr : rows.map (fun r => if r.id == k then r' else r) =
      rows.map (fun r => r) := by
    apply List.map_congr_left
    intro y hy
    by_cases hb : (y.id == k) = true
    · rw [if_pos hb, h y hy hb]
    · rw [if_neg hb]
  rw [hcongr, List.map_id']

/-- With nodup keys, rows sharing a key coincide. -/
theorem eq_of_same_id (rows : List UserRole) (h : (idsOf rows).Nodup)
    (a b : UserRole) (ha : a ∈ rows) (hb : b ∈ rows) (hid : a.id = b.id) : a = b :=
  eq_of_countP_le_one rows (fun r => r.id == b.id) (countP_id_le_one rows h b.id) a b
    ha hb (beq_iff_eq.mpr hid) (beq_iff_eq.mpr rfl)

/-- The clearing update preserves triple membership pointwise. -/
theorem tripleMatchB_clearFun (uid keep u' rid ctx : Nat) (x : UserRole) :
    tripleMatchB u' rid ctx
      (if otherActivePrimaryB uid keep x then {x with is_primary := false} else x) =
      tripleMatchB u' rid ctx x := by
  by_cases hc : otherActivePrimaryB uid keep x = true
  · rw [if_pos hc]
    simp [tripleMatchB]
  · rw [if_neg hc]

/-- The clearing update preserves active triple membership pointwise. -/
theorem activeTripleB_clearFun (uid keep u' rid ctx : Nat) (x : UserRole) :
    activeTripleB u' rid ctx
      (if otherActivePrimaryB uid keep x then {x with is_primary := false} else x) =
      activeTripleB u' rid ctx x := by
  by_cases hc : otherActivePrimaryB uid keep x = true
  · rw [if_pos hc]
    simp [activeTripleB, tripleMatchB]
  · rw [if_neg hc]

/-- Reactivation preserves the identity triple of the row. -/
theorem tripleMatchB_reactivated (u' rid ctx : Nat) (row : UserRole)
    (ab ea : Option Nat) (p : Bool) (n : String) :
    tripleMatchB u' rid ctx (reactivatedRow row ab ea p n) =
      tripleMatchB u' rid ctx row := rfl

/-- A store whose triple-matching row is a fixed point of the reactivation
updates absorbs a repeated assign: the call succeeds, changes nothing, and
returns the stored row's key. -/
theorem assign_fixed_point (db1 : Db) (u : Nat) (role : Role) (ab ea c? : Option Nat)
    (p : Bool) (n : String) (rr : UserRole)
    (hcap2 : can_assign_more_users db1.userRoles role = true)
    (hF1 : db1.userRoles.find? (tripleMatchB u role.id (c?.getD 0)) = some rr)
    (hfix : reactivatedRow rr ab ea p n = rr)
    (hact : rr.is_active = true)
    (hchk : (rr.is_primary && hasOtherActivePrimary db1.userRoles u rr.id) = false)
    (hupd : updateRow db1.userRoles rr.id rr = db1.userRoles)
    (hclr : p = true → clearOtherPrimaries db1.userRoles u rr.id = db1.userRoles) :
    assign_role_to_user db1 u role ab ea c? p n = .ok (db1, rr.id) := by
  rw [assign_role_to_user, if_neg (not_not_intro hcap2), hF1]
  show (if (reactivatedRow rr ab ea p n).is_primary &&
      hasOtherActivePrimary db1.userRoles u rr.id then
      (.error .alreadyPrimary : Except RbacError (Db × Nat))
    else .ok ({db1 with
        userRoles := if p then
            clearOtherPrimaries
              (updateRow db1.userRoles rr.id (reactivatedRow rr ab ea p n)) u rr.id
          else updateRow db1.userRoles rr.id (reactivatedRow rr ab ea p n)
        history := db1.history ++
          log_role_assignment false (reactivatedRow rr ab ea p n)}, rr.id)) =
    .ok (db1, rr.id)
  rw [hfix]
  rw [if_neg (by rw [hchk]; simp)]
  rw [hupd]
  have hlog : log_role_assignment false rr = [] := by
    rw [log_role_assignment]
    simp [hact]
  rw [hlog, List.append_nil]
  by_cases hp : p = true
  · rw [if_pos hp, hclr hp]
  · rw [if_neg hp]

/-- Second-call analysis after a creating assign: with capacity still open,
the repeated call reactivates the created row in place. -/
theorem assign_second_create (db : Db) (u : Nat) (role : Role) (ab ea c? : Option Nat)
    (p : Bool) (n : String) (db1 : Db)
    (hfresh : ∀ i ∈ idsOf db.userRoles, i < db.nextId)
    (hnodup : (idsOf db.userRoles).Nodup)
    (hf : db.userRoles.find? (tripleMatchB u role.id (c?.getD 0)) = none)
    (hrows : db1.userRoles = (if p then
        clearOtherPrimaries
          (db.userRoles ++ [newAssignRow db.nextId u role ab ea (c?.getD 0) p n]) u db.nextId
      else db.userRoles ++ [newAssignRow db.nextId u role ab ea (c?.getD 0) p n]))
    (hcap2 : can_assign_more_users db1.userRoles role = true) :
    assign_role_to_user db1 u role ab ea c? p n = .ok (db1, db.nextId) ∧
    db1.userRoles.countP (activeTripleB u role.id (c?.getD 0)) = 1 := by
  have hnewP : tripleMatchB u role.id (c?.getD 0)
      (newAssignRow db.nextId u role ab ea (c?.getD 0) p n) = true := by
    simp [tripleMatchB, newAssignRow]
  have hfind_app : (db.userRoles ++
      [newAssignRow db.nextId u role ab ea (c?.getD 0) p n]).find?
      (tripleMatchB u role.id (c?.getD 0)) =
      some (newAssignRow db.nextId u role ab ea (c?.getD 0) p n) := by
    rw [List.find?_append, hf]
    show Option.or none _ = _
    rw [Option.none_or]
    exact List.find?_cons_of_pos _ hnewP
  have hco : otherActivePrimaryB u db.nextId
      (newAssignRow db.nextId u role ab ea (c?.getD 0) p n) = false := by
    simp [otherActivePrimaryB, newAssignRow]
  have hF1 : db1.userRoles.find? (tripleMatchB u role.id (c?.getD 0)) =
      some (newAssignRow db.nextId u role ab ea (c?.getD 0) p n) := by
    rw [hrows]
    by_cases hp : p = true
    · rw [if_pos hp, clearOtherPrimaries,
        find?_map_of_pred_eq _ _ _
          (fun x _ => tripleMatchB_clearFun u db.nextId u role.id (c?.getD 0) x),
        hfind_app, Option.map_some']
      simp [hco]
    · rw [if_neg hp]
      exact hfind_app
  have hids1 : idsOf db1.userRoles = idsOf db.userRoles ++ [db.nextId] := by
    rw [hrows]
    by_cases hp : p = true
    · rw [if_pos hp, idsOf_clearOtherPrimaries, idsOf_append]
      rfl
    · rw [if_neg hp, idsOf_append]
      rfl
  have hnodup1 : (idsOf db1.userRoles).Nodup := by
    rw [hids1, List.nodup_append]
    refine ⟨hnodup, List.nodup_singleton _, ?_⟩
    intro a ha hb
    have hadn : a = db.nextId := by simpa using hb
    rw [hadn] at ha
    exact absurd (hfresh _ ha) (by omega)
  have hmemnew : newAssignRow db.nextId u role ab ea (c?.getD 0) p n ∈ db1.userRoles :=
    List.mem_of_find?_eq_some hF1
  have hupd : updateRow db1.userRoles
      (newAssignRow db.nextId u role ab ea (c?.getD 0) p n).id
      (newAssignRow db.nextId u role ab ea (c?.getD 0) p n) = db1.userRoles := by
    apply updateRow_self
    intro y hy hb
    exact eq_of_same_id db1.userRoles hnodup1 y _ hy hmemnew (beq_iff_eq.mp hb)
  have hchk : ((newAssignRow db.nextId u role ab ea (c?.getD 0) p n).is_primary &&
      hasOtherActivePrimary db1.userRoles u
        (newAssignRow db.nextId u role ab ea (c?.getD 0) p n).id) = false := by
    by_cases hp : p = true
    · subst hp
      have hh : hasOtherActivePrimary db1.userRoles u db.nextId = false := by
        rw [hrows, if_pos rfl]
        exact hasOther_clear_self _ u db.nextId
      show (true && hasOtherActivePrimary db1.userRoles u db.nextId) = false
      rw [hh]
      rfl
    · have hpf : p = false := by
        revert hp
        cases p <;> simp
      subst hpf
      rfl
  have hclr : p = true →
      clearOtherPrimaries db1.userRoles u
        (newAssignRow db.nextId u role ab ea (c?.getD 0) p n).id = db1.userRoles := by
    intro hp
    rw [hrows, if_pos hp]
    exact clear_idem _ u db.nextId
  refine ⟨assign_fixed_point db1 u role ab ea c? p n
    (newAssignRow db.nextId u role ab ea (c?.getD 0) p n) hcap2 hF1
    (reactivatedRow_new db.nextId u role ab ea (c?.getD 0) p n) rfl hchk hupd hclr, ?_⟩
  have hcnt_app : (db.userRoles ++
      [newAssignRow db.nextId u role ab ea (c?.getD 0) p n]).countP
      (activeTripleB u role.id (c?.getD 0)) = 1 := by
    rw [List.countP_append]
    have hz : db.userRoles.countP (activeTripleB u role.id (c?.getD 0)) = 0 := by
      rw [List.countP_eq_zero]
      intro r hr hA
      have hall := List.find?_eq_none.mp hf r hr
      rw [activeTripleB, Bool.and_eq_true] at hA
      exact hall hA.1
    have ho : List.countP (activeTripleB u role.id (c?.getD 0))
        [newAssignRow db.nextId u role ab ea (c?.getD 0) p n] = 1 := by
      have : activeTripleB u role.id (c?.getD 0)
          (newAssignRow db.nextId u role ab ea (c?.getD 0) p n) = true := by
        rw [activeTripleB, hnewP]
        rfl
      simp [List.countP_cons, this]
    omega
  rw [hrows]
  by_cases hp : p = true
  · rw [if_pos hp, clearOtherPrimaries,
      countP_map_congr _ _ _ _
        (fun x _ => activeTripleB_clearFun u db.nextId u role.id (c?.getD 0) x)]
    exact hcnt_app
  · rw [if_neg hp]
    exact hcnt_app

/-- Second-call analysis after a reactivating assign: with capacity still
open, the repeated call reactivates the same row in place. -/
theorem assign_second_reactivate (db : Db) (u : Nat) (role : Role)
    (ab ea c? : Option Nat) (p : Bool) (n : String) (db1 : Db) (row : UserRole)
    (hnodup : (idsOf db.userRoles).Nodup)
    (htrip : db.userRoles.countP (tripleMatchB u role.id (c?.getD 0)) ≤ 1)
    (hf : db.userRoles.find? (tripleMatchB u role.id (c?.getD 0)) = some row)
    (hrows : db1.userRoles = (if p then
        clearOtherPrimaries
          (updateRow db.userRoles row.id (reactivatedRow row ab ea p n)) u row.id
      else updateRow db.userRoles row.id (reactivatedRow row ab ea p n)))
    (hcap2 : can_assign_more_users db1.userRoles role = true) :
    assign_role_to_user db1 u role ab ea c? p n = .ok (db1, row.id) ∧
    db1.userRoles.countP (activeTripleB u role.id (c?.getD 0)) = 1 := by
  have hrowP : tripleMatchB u role.id (c?.getD 0) row = true := List.find?_some hf
  have hrowM : row ∈ db.userRoles := List.mem_of_find?_eq_some hf
  have hrowuniq : ∀ y ∈ db.userRoles,
      tripleMatchB u role.id (c?.getD 0) y = true → y = row :=
    fun y hy hpy => eq_of_countP_le_one _ _ htrip y row hy hrowM hpy hrowP
  have hidu : ∀ y ∈ db.userRoles, (y.id == row.id) = true → y = row :=
    fun y hy hb => eq_of_same_id db.userRoles hnodup y row hy hrowM (beq_iff_eq.mp hb)
  have hpw : ∀ y ∈ db.userRoles,
      tripleMatchB u role.id (c?.getD 0)
        (if y.id == row.id then reactivatedRow row ab ea p n else y) =
      tripleMatchB u role.id (c?.getD 0) y := by
    intro y hy
    by_cases hb : (y.id == row.id) = true
    · rw [if_pos hb, hidu y hy hb]
      exact tripleMatchB_reactivated u role.id (c?.getD 0) row ab ea p n
    · rw [if_neg hb]
  have hupd_find : (updateRow db.userRoles row.id
      (reactivatedRow row ab ea p n)).find? (tripleMatchB u role.id (c?.getD 0)) =
      some (reactivatedRow row ab ea p n) := by
    rw [updateRow, find?_map_of_pred_eq _ _ _ hpw, hf, Option.map_some']
    simp
  have hcr : otherActivePrimaryB u row.id (reactivatedRow row ab ea p n) = false := by
    simp [otherActivePrimaryB, reactivatedRow]
  have hF1 : db1.userRoles.find? (tripleMatchB u role.id (c?.getD 0)) =
      some (reactivatedRow row ab ea p n) := by
    rw [hrows]
    by_cases hp : p = true
    · rw [if_pos hp, clearOtherPrimaries,
        find?_map_of_pred_eq _ _ _
          (fun x _ => tripleMatchB_clearFun u row.id u role.id (c?.getD 0) x),
        hupd_find, Option.map_some']
      simp [hcr]
    · rw [if_neg hp]
      exact hupd_find
  have hrrid : (reactivatedRow row ab ea p n).id = row.id := rfl
  have hids1 : idsOf db1.userRoles = idsOf db.userRoles := by
    rw [hrows]
    by_cases hp : p = true
    · rw [if_pos hp, idsOf_clearOtherPrimaries, idsOf_updateRow _ _ _ hrrid]
    · rw [if_neg hp, idsOf_updateRow _ _ _ hrrid]
  have hnodup1 : (idsOf db1.userRoles).Nodup := by
    rw [hids1]
    exact hnodup
  have hmemrr : reactivatedRow row ab ea p n ∈ db1.userRoles :=
    List.mem_of_find?_eq_some hF1
  have hupd : updateRow db1.userRoles (reactivatedRow row ab ea p n).id
      (reactivatedRow row ab ea p n) = db1.userRoles := by
    apply updateRow_self
    intro y hy hb
    exact eq_of_same_id db1.userRoles hnodup1 y _ hy hmemrr (beq_iff_eq.mp hb)
  have hchk : ((reactivatedRow row ab ea p n).is_primary &&
      hasOtherActivePrimary db1.userRoles u (reactivatedRow row ab ea p n).id) =
      false := by
    by_cases hp : p = true
    · subst hp
      have hh : hasOtherActivePrimary db1.userRoles u row.id = false := by
        rw [hrows, if_pos rfl]
        exact hasOther_clear_self _ u row.id
      show (true && hasOtherActivePrimary db1.userRoles u row.id) = false
      rw [hh]
      rfl
    · have hpf : p = false := by
        revert hp
        cases p <;> simp
      subst hpf
      rfl
  have hclr : p = true →
      clearOtherPrimaries db1.userRoles u (reactivatedRow row ab ea p n).id =
        db1.userRoles := by
    intro hp
    rw [hrows, if_pos hp, hrrid]
    exact clear_idem _ u row.id
  refine ⟨assign_fixed_point db1 u role ab ea c? p n (reactivatedRow row ab ea p n)
    hcap2 hF1 (reactivatedRow_idem row ab ea p n) rfl hchk hupd hclr, ?_⟩
  have hcnt_upd : (updateRow db.userRoles row.id
      (reactivatedRow row ab ea p n)).countP (activeTripleB u role.id (c?.getD 0)) =
      db.userRoles.countP (fun y => y.id == row.id) := by
    rw [updateRow]
    apply countP_map_congr
    intro y hy
    by_cases hb : (y.id == row.id) = true
    · rw [if_pos hb, hb]
      rw [activeTripleB, tripleMatchB_reactivated, hrowP]
      rfl
    · rw [if_neg hb]
      have hbf : (y.id == row.id) = false := by
        revert hb
        cases (y.id == row.id) <;> simp
      rw [hbf]
      by_cases hA : activeTripleB u role.id (c?.getD 0) y = true
      · exfalso
        rw [activeTripleB, Bool.and_eq_true] at hA
        have := hrowuniq y hy hA.1
        rw [this] at hb
        exact hb (beq_iff_eq.mpr rfl)
      · revert hA
        cases activeTripleB u role.id (c?.getD 0) y <;> simp
  have hone : db.userRoles.countP (fun y => y.id == row.id) = 1 := by
    have hle := countP_id_le_one db.userRoles hnodup row.id
    have hpos : 0 < db.userRoles.countP (fun y => y.id == row.id) :=
      List.countP_pos_iff.mpr ⟨row, hrowM, beq_iff_eq.mpr rfl⟩
    omega
  rw [hrows]
  by_cases hp : p = true
  · rw [if_pos hp, clearOtherPrimaries,
      countP_map_congr _ _ _ _
        (fun x _ => activeTripleB_clearFun u row.id u role.id (c?.getD 0) x),
      hcnt_upd, hone]
  · rw [if_neg hp, hcnt_upd, hone]

/-- Claim C6, amended: with pairwise-distinct identity triples and fresh,
distinct keys in the store, calling `assign_role_to_user` twice with the same
arguments leaves exactly one active assignment row for the triple and the
second call reactivates the existing row — returning the same key and the
unchanged store — instead of creating a duplicate or erroring, provided the
role's capacity check still passes at the second call (it counts the
caller's own row, so a role at `max_users` rejects the repeat instead). -/
theorem assign_twice_idempotent_when_capacity_allows :
    ∀ (db : Db) (u : Nat) (role : Role) (ab ea c? : Option Nat) (p : Bool) (n : String)
      (db1 : Db) (id1 : Nat),
      (∀ i ∈ idsOf db.userRoles, i < db.nextId) →
      (idsOf db.userRoles).Nodup →
      (∀ ctx, db.userRoles.countP (tripleMatchB u role.id ctx) ≤ 1) →
      assign_role_to_user db u role ab ea c? p n = .ok (db1, id1) →
      can_assign_more_users db1.userRoles role = true →
      assign_role_to_user db1 u role ab ea c? p n = .ok (db1, id1) ∧
      db1.userRoles.countP (activeTripleB u role.id (c?.getD 0)) = 1 := by
  intro db u role ab ea c? p n db1 id1 hfresh hnodup htrip h1 hcap2
  rcases assign_ok_cases db u role ab ea c? p n db1 id1 h1 with
    ⟨hf, hx, hrows, _, _, _, _⟩ | ⟨row, hf, hx, hrows, _, _, _, _⟩
  · have hsec := assign_second_create db u role ab ea c? p n db1 hfresh hnodup hf
      hrows hcap2
    exact ⟨by rw [hx]; exact hsec.1, hsec.2⟩
  · have hsec := assign_second_reactivate db u role ab ea c? p n db1 row hnodup
      (htrip _) hf hrows hcap2
    exact ⟨by rw [hx]; exact hsec.1, hsec.2⟩

/-- Claim C6, witness for the amended theorem: an unlimited role assigned
twice from a fresh store. -/
theorem assign_twice_idempotent_witness :
    assign_role_to_user dbAfterFreeAssign 0 roleFree none none none false "" =
      .ok (dbAfterFreeAssign, 0) ∧
    dbAfterFreeAssign.userRoles.countP (activeTripleB 0 roleFree.id 0) = 1 :=
  assign_twice_idempotent_when_capacity_allows (initDb [roleFree] []) 0 roleFree
    none none none false "" dbAfterFreeAssign 0
    (by intro i hi; simp [initDb, idsOf] at hi)
    (by simp [initDb, idsOf])
    (fun ctx => Nat.zero_le 1)
    rfl
    rfl

end Rbac
